import Mathlib

/-!
Verification of the resilience and state layer of the Tidal music skill.

Each section shallowly embeds one source component:

* `TidalApiClient` — `src/lambda/clients/tidalApiClient.js` (`requestWithRetry`)
* `TidalService` — `src/lambda/services/tidalService.js` (`_executeWithTokenRefresh`)
* `CacheService` — `src/lambda/services/cacheService.js`
* `TokenPersistenceService` — token store in `src/lambda/services/cacheService.js`
* `PlaybackPersistenceService` / `AudioPlayerEventHandler` — playback store and
  the AudioPlayer lifecycle handler (`src/unnamed/part_004`)

JavaScript `Map`s are embedded as association lists in insertion order with
unique keys (a JS `Map` can never hold a duplicate key); `Map.delete` is the
removal of the key's binding, `Map.set` replaces in place or appends.
Times (`Date.now()`) are explicit integer millisecond parameters.
-/

/-- Lookup in an insertion-ordered association list (JS `Map.get`). -/
def jsMapGet {β : Type} : List (String × β) → String → Option β
  | [], _ => none
  | (k, v) :: rest, key => if k = key then some v else jsMapGet rest key

/-- JS `Map.set`: replace the binding in place if the key is present, else append. -/
def jsMapSet {β : Type} (m : List (String × β)) (key : String) (v : β) :
    List (String × β) :=
  if (jsMapGet m key).isSome then
    m.map (fun p => if p.1 = key then (key, v) else p)
  else
    m ++ [(key, v)]

/-- JS `Map.delete`: remove the key's binding. -/
def jsMapDelete {β : Type} (m : List (String × β)) (key : String) :
    List (String × β) :=
  m.filter (fun p => p.1 != key)

namespace TidalApiClient

/-!
Embedding of `TidalApiClient.requestWithRetry`
(`src/lambda/clients/tidalApiClient.js`, lines 193-282).

An HTTP failure is `error.response` being absent (network/timeout, modelled as
`status = none`) or carrying a status code. The `tag` field gives distinct
error objects an identity so that "the last error is thrown unchanged" is a
statement about object identity, not just about the status. The outcome of
each 0-indexed attempt and the `Math.random()` draw used for its jitter are
supplied as oracles `outcome : Nat → AttemptOutcome α` and `rand : Nat → ℚ`.
-/

structure HttpError where
  status : Option Nat
  tag : Nat
deriving DecidableEq, Repr

inductive AttemptOutcome (α : Type) where
  | ok : α → AttemptOutcome α
  | fail : HttpError → AttemptOutcome α
deriving DecidableEq, Repr

/-- Line 246: `error.response && [400, 401, 403, 404].includes(error.response.status)`. -/
def nonRetryable (e : HttpError) : Bool :=
  match e.status with
  | some s => s == 400 || s == 401 || s == 403 || s == 404
  | none => false

/-- Lines 260-263: `Math.min(this.maxDelayMs, Math.pow(2, attempt) * this.baseDelayMs)`. -/
def backoffDelay (baseDelayMs maxDelayMs : ℚ) (attempt : Nat) : ℚ :=
  min maxDelayMs ((2 : ℚ) ^ attempt * baseDelayMs)

/-- Lines 264-265: `delayMs = baseDelay + Math.random() * (baseDelay * 0.2)`. -/
def attemptDelay (baseDelayMs maxDelayMs : ℚ) (rand : Nat → ℚ) (attempt : Nat) : ℚ :=
  backoffDelay baseDelayMs maxDelayMs attempt
    + rand attempt * (backoffDelay baseDelayMs maxDelayMs attempt * (2 / 10))

/-- Observable outcome of one `requestWithRetry` call: the value returned or the
error thrown (`.error none` is the degenerate `retries = 0` case, where the JS
would throw its null `lastError`), the number of attempts actually made, and
the list of backoff delays awaited, in order. -/
structure RetryRun (α : Type) where
  result : Except (Option HttpError) α
  attemptsMade : Nat
  delays : List ℚ

/-- The `for (let attempt = 0; attempt < retries; attempt++)` loop of lines
213-274, with `remaining = retries - attempt` as fuel. A non-retryable status
breaks (line 251); the last attempt breaks without waiting (line 255);
otherwise the computed delay is awaited and the loop continues. After the
loop the last error is rethrown unchanged (line 281). -/
def runRetryLoop (outcome : Nat → AttemptOutcome α) (rand : Nat → ℚ)
    (baseDelayMs maxDelayMs : ℚ) :
    Nat → Nat → Option HttpError → RetryRun α
  | 0, _, lastError => ⟨.error lastError, 0, []⟩
  | remaining + 1, attempt, _ =>
    match outcome attempt with
    | .ok v => ⟨.ok v, 1, []⟩
    | .fail e =>
      if nonRetryable e then ⟨.error (some e), 1, []⟩
      else if remaining = 0 then ⟨.error (some e), 1, []⟩
      else
        let rest := runRetryLoop outcome rand baseDelayMs maxDelayMs remaining (attempt + 1) (some e)
        ⟨rest.result, rest.attemptsMade + 1,
          attemptDelay baseDelayMs maxDelayMs rand attempt :: rest.delays⟩

/-- `requestWithRetry` with `retries` total attempts (source default: the
configured `maxRetries`). -/
def requestWithRetry (outcome : Nat → AttemptOutcome α) (rand : Nat → ℚ)
    (baseDelayMs maxDelayMs : ℚ) (retries : Nat) : RetryRun α :=
  runRetryLoop outcome rand baseDelayMs maxDelayMs retries 0 none

/-- Retryable per the spec taxonomy: 429, any 5xx, or a network/timeout error
(no response). -/
def specRetryable (e : HttpError) : Bool :=
  match e.status with
  | some s => s == 429 || (500 ≤ s && s ≤ 599)
  | none => true

end TidalApiClient

namespace TidalService

/-!
Embedding of `TidalService._executeWithTokenRefresh`
(`src/lambda/services/tidalService.js`, lines 640-717).

The wrapped `apiCallFn` is a JS closure: it is a value with an invocation
behaviour (`run`, the outcome of calling `apiCallFn()` at line 643) and a
serialized form (`source`, what `apiCallFn.toString()` returns at line 705).
The token-store lookups and the token-exchange endpoint are supplied in a
`RefreshEnv`. The run records the result, how many times `apiCallFn` was
actually invoked, and which persistence operations were performed.
-/

/-- The outcome of the first (and, in this code, only) invocation of the
wrapped thunk, plus its `toString()` serialization. -/
structure ApiCallFn where
  run : Except TidalApiClient.HttpError String
  source : String

/-- Response of the OAuth2 refresh grant (`tidalApi.refreshAccessToken`). -/
structure NewTokens where
  access_token : String
  refresh_token : String
  expires_in : Nat
deriving DecidableEq, Repr

/-- Record returned by `tokenPersistenceService.getTokensByUserId`; a missing
`refreshToken` field (JS falsy) is the empty string. -/
structure UserTokens where
  accessToken : String
  refreshToken : String
deriving DecidableEq, Repr

/-- Collaborator behaviour for one `_executeWithTokenRefresh` call:
`tokensByUserId` is what `getTokensByUserId userId` resolves (none = null),
`refreshByAccessToken` is what `getRefreshTokenByAccessToken accessToken`
resolves, and `exchange` is `tidalApi.refreshAccessToken`. -/
structure RefreshEnv where
  tokensByUserId : Option UserTokens
  refreshByAccessToken : Option String
  exchange : String → Except TidalApiClient.HttpError NewTokens

/-- A JS value produced by the coordinator: either a real API response (the
payload string stands for the response object) or a plain string — which is
what the buggy retry path produces. -/
inductive CallResult where
  | response : String → CallResult
  | sourceText : String → CallResult
deriving DecidableEq, Repr

/-- Persistence and cache side effects of the refresh path. -/
inductive PersistOp where
  | update : String → String → String → String → Nat → PersistOp
  | save : String → String → String → Nat → PersistOp
  | cacheDelete : String → String → PersistOp
deriving DecidableEq, Repr

/-- Observable outcome of `_executeWithTokenRefresh`. -/
structure RefreshRun where
  result : Except TidalApiClient.HttpError CallResult
  apiCallInvocations : Nat
  persists : List PersistOp

/-- JS `String.prototype.replace` with a string pattern: replace the first
occurrence only (`pat` empty inserts at the start, as in JS). -/
def listStartsWith : List Char → List Char → Bool
  | [], _ => true
  | _ :: _, [] => false
  | p :: ps, c :: cs => p == c && listStartsWith ps cs

def replaceFirstChars (pat repl : List Char) : List Char → List Char
  | [] => []
  | c :: cs =>
    if listStartsWith pat (c :: cs) then repl ++ (c :: cs).drop pat.length
    else c :: replaceFirstChars pat repl cs

def jsReplaceFirst (s pat repl : String) : String :=
  String.mk (replaceFirstChars pat.data repl.data s.data)

/-- `CacheService.makeKey`: stringify the arguments and join them with a colon. -/
def makeKey (args : List String) : String :=
  String.intercalate ":" args

/-- Lines 652-671: resolve a refresh token, trying `getTokensByUserId` when a
(truthy) `userId` is available and falling back to the access-token secondary
index. -/
def resolveRefreshToken (env : RefreshEnv) (userId : Option String) : Option String :=
  let fromUser : Option String :=
    match userId, env.tokensByUserId with
    | some _, some tokens =>
      if tokens.refreshToken ≠ "" then some tokens.refreshToken else none
    | _, _ => none
  match fromUser with
  | some rt => some rt
  | none => env.refreshByAccessToken

/-- Embedding of `_executeWithTokenRefresh(apiCallFn, accessToken, userId)`.

Control flow of the source: invoke `apiCallFn()` once (line 643); rethrow
unless the failure is a 401 with a truthy access token (line 646); resolve a
refresh token, rethrowing the original error when none is found (line 670) or
when any step of the refresh path throws (line 714); exchange it (line 674);
persist the rotated pair with `updateTokens` when a `userId` is known, else
`saveTokens` under the user `anonymous` (lines 677-693); delete the
`userInfo:accessToken` cache entry (line 735); finally build
`updatedApiCallFn`, which returns
`apiCallFn.toString().replace(accessToken, newTokens.access_token)` — the
serialized source with the first occurrence of the old token substituted — and
return the result of awaiting it (lines 701-710). `apiCallFn` itself is never
invoked a second time. -/
def executeWithTokenRefresh (env : RefreshEnv) (apiCallFn : ApiCallFn)
    (accessToken : String) (userId : Option String) : RefreshRun :=
  match apiCallFn.run with
  | .ok resp => ⟨.ok (.response resp), 1, []⟩
  | .error err =>
    if err.status = some 401 ∧ accessToken ≠ "" then
      match resolveRefreshToken env userId with
      | none => ⟨.error err, 1, []⟩
      | some rt =>
        match env.exchange rt with
        | .error _ => ⟨.error err, 1, []⟩
        | .ok newTokens =>
          ⟨.ok (.sourceText (jsReplaceFirst apiCallFn.source accessToken
              newTokens.access_token)),
           1,
           (match userId with
            | some uid => [PersistOp.update uid accessToken newTokens.access_token
                newTokens.refresh_token newTokens.expires_in]
            | none => [PersistOp.save "anonymous" newTokens.access_token
                newTokens.refresh_token newTokens.expires_in])
             ++ [PersistOp.cacheDelete "tidal" (makeKey ["userInfo", accessToken])]⟩
    else ⟨.error err, 1, []⟩

end TidalService

namespace CacheService

/-!
Embedding of `CacheService` (`src/lambda/services/cacheService.js`).

The nested `Map` of `Map`s (`this.caches`) is an association list of
namespaces, each an association list of entries in insertion order. Cached
values have an arbitrary type `V`.
-/

/-- `CacheEntry` (lines 12-48): `hits`/`lastAccess` track accesses via `hit()`. -/
structure CacheEntry (V : Type) where
  value : V
  expiresAt : Int
  createdAt : Int
  hits : Nat
  lastAccess : Option Int
deriving DecidableEq

/-- The `CacheEntry` constructor at time `now` (`Date.now()`):
`expiresAt = now + ttl * 1000`, `createdAt = now`. -/
def CacheEntry.create {V : Type} (value : V) (ttl : Int) (now : Int) : CacheEntry V :=
  ⟨value, now + ttl * 1000, now, 0, none⟩

/-- Lines 29-31: `Date.now() > this.expiresAt`. -/
def CacheEntry.isExpired {V : Type} (e : CacheEntry V) (now : Int) : Bool :=
  decide (e.expiresAt < now)

/-- Lines 36-39: `hit()` increments `hits` and stamps `lastAccess`. -/
def CacheEntry.hit {V : Type} (e : CacheEntry V) (now : Int) : CacheEntry V :=
  { e with hits := e.hits + 1, lastAccess := some now }

/-- The `this.stats` counters. -/
structure CacheStats where
  hits : Nat
  misses : Nat
  evictions : Nat
  sets : Nat
  expired : Nat
deriving DecidableEq, Repr

/-- The mutable state of one `CacheService` instance. -/
structure CacheState (V : Type) where
  enabled : Bool
  maxSize : Nat
  caches : List (String × List (String × CacheEntry V))
  stats : CacheStats
deriving DecidableEq

/-- The namespace map currently held for `ns` (empty when absent). -/
def nsOf {V : Type} (st : CacheState V) (ns : String) : List (String × CacheEntry V) :=
  (jsMapGet st.caches ns).getD []

/-- `_getCache` (lines 111-116): create the namespace on first use. -/
def ensureNs {V : Type} (st : CacheState V) (ns : String) : CacheState V :=
  if (jsMapGet st.caches ns).isSome then st
  else { st with caches := jsMapSet st.caches ns [] }

/-- `get(namespace, key)` at time `now` (lines 162-200): returns the value (or
none) and the updated state. A present but expired entry is deleted and counted
in `expired` and `misses`; a live entry is `hit()` and counted in `hits`. -/
def get {V : Type} (st : CacheState V) (ns key : String) (now : Int) :
    Option V × CacheState V :=
  if st.enabled = false then (none, st)
  else
    let st1 := ensureNs st ns
    let cache := nsOf st1 ns
    match jsMapGet cache key with
    | none =>
      (none, { st1 with stats := { st1.stats with misses := st1.stats.misses + 1 } })
    | some entry =>
      if entry.isExpired now then
        (none, { st1 with
          caches := jsMapSet st1.caches ns (jsMapDelete cache key),
          stats := { st1.stats with
            expired := st1.stats.expired + 1,
            misses := st1.stats.misses + 1 } })
      else
        (some entry.value, { st1 with
          caches := jsMapSet st1.caches ns (jsMapSet cache key (entry.hit now)),
          stats := { st1.stats with hits := st1.stats.hits + 1 } })

/-- The `for (const [key, entry] of cache.entries())` scan of `_evictOne`
(lines 399-407): keep the current oldest, replacing it only on a strictly
smaller `createdAt`, so the first minimum in iteration order wins. -/
def findOldest {V : Type} :
    Option (String × CacheEntry V) → List (String × CacheEntry V) →
    Option (String × CacheEntry V)
  | cur, [] => cur
  | none, p :: rest => findOldest (some p) rest
  | some cur, p :: rest =>
    if p.2.createdAt < cur.2.createdAt then findOldest (some p) rest
    else findOldest (some cur) rest

/-- `_evictOne(namespace)` (lines 389-425): no-op below `maxSize`, otherwise
delete the entry with the oldest `createdAt` and count an eviction. -/
def evictOne {V : Type} (st : CacheState V) (ns : String) : CacheState V :=
  let st1 := ensureNs st ns
  let cache := nsOf st1 ns
  if cache.length < st1.maxSize then st1
  else
    match findOldest none cache with
    | none => st1
    | some (oldestKey, _) =>
      { st1 with
        caches := jsMapSet st1.caches ns (jsMapDelete cache oldestKey),
        stats := { st1.stats with evictions := st1.stats.evictions + 1 } }

/-- `set(namespace, key, value, ttl)` at time `now` (lines 126-154): evict once
when the namespace is at or above `maxSize`, then store a fresh entry. -/
def set {V : Type} (st : CacheState V) (ns key : String) (value : V) (ttl : Int)
    (now : Int) : CacheState V :=
  if st.enabled = false then st
  else
    let st1 := ensureNs st ns
    let st2 := if st1.maxSize ≤ (nsOf st1 ns).length then evictOne st1 ns else st1
    { st2 with
      caches := jsMapSet st2.caches ns
        (jsMapSet (nsOf st2 ns) key (CacheEntry.create value ttl now)),
      stats := { st2.stats with sets := st2.stats.sets + 1 } }

end CacheService

namespace TokenPersistenceService

/-!
Embedding of `TokenPersistenceService` (token store in
`src/lambda/services/cacheService.js`, second module).

The DynamoDB token table is a list of records keyed by
`(userId, accessToken)`; `putItem` is an upsert on that key and `deleteItem`
removes the keyed record. Whether each remote call succeeds is an explicit
Boolean (`putOk`, `deleteOk`): a failed call throws without having mutated the
table. The in-memory `tokenCache` (accessToken to refreshToken) is carried for
faithfulness. `DbOutcome.threw` records whether the operation threw; the state
it carries is the store as the operation left it.
-/

structure TokenRecord where
  userId : String
  accessToken : String
  refreshToken : String
  expiresAt : Int
  createdAt : Int
  updatedAt : Int
deriving DecidableEq, Repr

/-- DynamoDB `put` upserts on the primary key `(userId, accessToken)`. -/
def tablePut (t : List TokenRecord) (r : TokenRecord) : List TokenRecord :=
  if t.any (fun x => x.userId == r.userId && x.accessToken == r.accessToken) then
    t.map (fun x =>
      if x.userId == r.userId && x.accessToken == r.accessToken then r else x)
  else
    t ++ [r]

/-- DynamoDB `delete` on the primary key. -/
def tableDelete (t : List TokenRecord) (userId accessToken : String) :
    List TokenRecord :=
  t.filter (fun x => !(x.userId == userId && x.accessToken == accessToken))

/-- The record currently stored under `(userId, accessToken)`, if any. -/
def tableLookup (t : List TokenRecord) (userId accessToken : String) :
    Option TokenRecord :=
  t.find? (fun x => x.userId == userId && x.accessToken == accessToken)

/-- State of the service: the durable table plus the in-memory token cache. -/
structure TokenServiceState where
  table : List TokenRecord
  tokenCache : List (String × String)
  cacheEnabled : Bool
  cacheMaxSize : Nat
deriving DecidableEq, Repr

/-- Outcome of a store operation: whether it threw, and the state it left. -/
structure DbOutcome where
  threw : Bool
  state : TokenServiceState
deriving DecidableEq, Repr

/-- `_updateCache` (lines 764-780): set the pair, then prune the first-inserted
entry when the cache exceeds `cacheMaxSize`. -/
def updateCache (st : TokenServiceState) (accessToken refreshToken : String) :
    TokenServiceState :=
  if st.cacheEnabled = false then st
  else
    let c := jsMapSet st.tokenCache accessToken refreshToken
    if st.cacheMaxSize < c.length then
      match c with
      | [] => { st with tokenCache := c }
      | (k, _) :: _ => { st with tokenCache := jsMapDelete c k }
    else { st with tokenCache := c }

/-- `saveTokens` (lines 526-559): build the record with
`expiresAt = now + expiresIn * 1000`, `putItem` it, then update the cache. A
failing put throws with the store untouched. -/
def saveTokens (putOk : Bool) (st : TokenServiceState)
    (userId accessToken refreshToken : String) (expiresIn : Int) (now : Int) :
    DbOutcome :=
  if putOk = false then ⟨true, st⟩
  else
    let r : TokenRecord :=
      ⟨userId, accessToken, refreshToken, now + expiresIn * 1000, now, now⟩
    let st1 := { st with table := tablePut st.table r }
    ⟨false, if st1.cacheEnabled then updateCache st1 accessToken refreshToken else st1⟩

/-- `deleteTokens` (lines 680-698): `deleteItem` the pair, then drop it from
the cache. A failing delete throws with the store untouched. -/
def deleteTokens (deleteOk : Bool) (st : TokenServiceState)
    (userId accessToken : String) : DbOutcome :=
  if deleteOk = false then ⟨true, st⟩
  else
    let st1 := { st with table := tableDelete st.table userId accessToken }
    ⟨false, if st1.cacheEnabled then
        { st1 with tokenCache := jsMapDelete st1.tokenCache accessToken }
      else st1⟩

/-- `updateTokens` (lines 659-672): delete the old pair (when the old access
token is truthy), then save the new pair; any throw is rethrown as-is. -/
def updateTokens (deleteOk putOk : Bool) (st : TokenServiceState)
    (userId oldAccessToken newAccessToken newRefreshToken : String)
    (expiresIn : Int) (now : Int) : DbOutcome :=
  let d := if oldAccessToken ≠ "" then deleteTokens deleteOk st userId oldAccessToken
           else ⟨false, st⟩
  if d.threw then ⟨true, d.state⟩
  else saveTokens putOk d.state userId newAccessToken newRefreshToken expiresIn now

end TokenPersistenceService

namespace PlaybackPersistenceService

/-!
Embedding of `PlaybackPersistenceService` (playback store module in
`src/lambda/services/tidalService.js`, third module) and of the AudioPlayer
lifecycle handler (`src/unnamed/part_004`).

A store is the per-user DynamoDB partition: the list of this user's snapshots,
most recent first (`savePlaybackState` appends a snapshot with a fresh
timestamp; `getLatestPlaybackState` queries descending with limit 1, i.e. the
head). Snapshots are dynamic JS objects whose `JSON.stringify`/`parse` round
trip is the identity; they are modelled as a record of optional fields — a
`none` field is an absent property. Timestamps are integer milliseconds. -/

/-- One element of the simplified track lists built by the play handlers
(`{id, title, artist}`). -/
structure Track where
  id : String
  title : String
  artist : String
deriving DecidableEq, Repr

/-- A playback snapshot; every field that any writer in the source ever sets. -/
structure Snapshot where
  type : Option String := none
  trackId : Option String := none
  title : Option String := none
  artist : Option String := none
  albumName : Option String := none
  offsetInMilliseconds : Option Int := none
  token : Option String := none
  currentIndex : Option Nat := none
  trackList : Option (List Track) := none
  url : Option String := none
  pausedAt : Option Int := none
  updatedAt : Option Int := none
  resumedAt : Option Int := none
  isComplete : Option Bool := none
  completedAt : Option Int := none
  error : Option String := none
  errorType : Option String := none
  errorTimestamp : Option Int := none
  playlistId : Option String := none
  playlistName : Option String := none
  albumId : Option String := none
  artistId : Option String := none
  artistName : Option String := none
deriving DecidableEq, Repr

abbrev PlaybackStore := List Snapshot

/-- `savePlaybackState` (lines 1061-1088): append-only write of a new snapshot. -/
def savePlaybackState (store : PlaybackStore) (s : Snapshot) : PlaybackStore :=
  s :: store

/-- `getLatestPlaybackState` (lines 1095-1128): descending query, limit 1. -/
def getLatestPlaybackState (store : PlaybackStore) : Option Snapshot :=
  store.head?

structure PlaylistInfo where
  trackList : List Track
  currentIndex : Nat
deriving DecidableEq, Repr

/-- `getPlaylist` (lines 1210-1226): null unless the latest snapshot has
`type === 'playlist'`; missing `trackList`/`currentIndex` default to `[]`/`0`. -/
def getPlaylist (store : PlaybackStore) : Option PlaylistInfo :=
  match getLatestPlaybackState store with
  | none => none
  | some st =>
    if st.type = some "playlist" then
      some ⟨st.trackList.getD [], st.currentIndex.getD 0⟩
    else none

/-- `updatePlaylistIndex` (lines 1234-1262): clamp the index into bounds and
append a fresh playlist snapshot. -/
def updatePlaylistIndex (store : PlaybackStore) (newIndex : Int) (now : Int) :
    Option PlaylistInfo × PlaybackStore :=
  match getPlaylist store with
  | none => (none, store)
  | some pl =>
    let validIndex : Nat :=
      (max 0 (min newIndex ((pl.trackList.length : Int) - 1))).toNat
    let snap : Snapshot :=
      { type := some "playlist", trackList := some pl.trackList,
        currentIndex := some validIndex, updatedAt := some now }
    (some ⟨pl.trackList, validIndex⟩, savePlaybackState store snap)

/-- The `updates` objects passed to `updateTrackState` by its call sites
(Stopped: `{offsetInMilliseconds, pausedAt}`; Resume:
`{url, updatedAt}` / `{resumedAt}`). -/
structure TrackUpdates where
  offsetInMilliseconds : Option Int := none
  pausedAt : Option Int := none
  url : Option String := none
  updatedAt : Option Int := none
  resumedAt : Option Int := none
deriving DecidableEq, Repr

/-- The spread `{...currentState, ...updates}`: a present property of
`updates` overrides the current snapshot's. -/
def mergeUpdates (cur : Snapshot) (u : TrackUpdates) : Snapshot :=
  { cur with
    offsetInMilliseconds := match u.offsetInMilliseconds with
      | some v => some v
      | none => cur.offsetInMilliseconds,
    pausedAt := match u.pausedAt with
      | some v => some v
      | none => cur.pausedAt,
    url := match u.url with
      | some v => some v
      | none => cur.url,
    updatedAt := match u.updatedAt with
      | some v => some v
      | none => cur.updatedAt,
    resumedAt := match u.resumedAt with
      | some v => some v
      | none => cur.resumedAt }

/-- The object `{...updates, token, updatedAt: now}` built at line 1155 for a
token mismatch: only the update fields plus `token` and `updatedAt`; every
other property — `type`, `trackList`, `currentIndex` included — is absent. -/
def updatesToSnapshot (u : TrackUpdates) (token : String) (now : Int) : Snapshot :=
  { offsetInMilliseconds := u.offsetInMilliseconds, pausedAt := u.pausedAt,
    url := u.url, resumedAt := u.resumedAt, token := some token,
    updatedAt := some now }

/-- `updateTrackState` (lines 1137-1180): when the latest snapshot's token
differs from the requested one, a brand-new sparse snapshot is appended;
otherwise the latest snapshot is merged with the updates and appended. -/
def updateTrackState (store : PlaybackStore) (token : String) (u : TrackUpdates)
    (now : Int) : Option Snapshot × PlaybackStore :=
  match getLatestPlaybackState store with
  | none => (none, store)
  | some cur =>
    if cur.token ≠ some token then
      (some (updatesToSnapshot u token now),
       savePlaybackState store (updatesToSnapshot u token now))
    else
      (some { mergeUpdates cur u with updatedAt := some now },
       savePlaybackState store { mergeUpdates cur u with updatedAt := some now })

end PlaybackPersistenceService

namespace AudioPlayerEventHandler

open PlaybackPersistenceService

/-!
Embedding of `AudioPlayerEventHandler.handle` (`src/unnamed/part_004`,
lines 396-616) for the `PlaybackFinished` and `PlaybackStopped` events.
`resolveStreamUrl` is the Catalog Access Layer
(`tidalService.getStreamUrl`, none = the call threw); `sessionCurrent` is
`sessionAttributes.currentlyPlaying`; `accessToken` and the event's `token`
come from the request envelope. Only the effect on the durable store is
modelled: the returned directives carry no persistent state. -/

/-- JS `a || b` on an optional string: a missing or empty (falsy) value falls
back to the default. -/
def jsOrString (o : Option String) (d : String) : String :=
  match o with
  | some s => if s = "" then d else s
  | none => d

/-- The snapshot written by the advance path (lines 476-491). -/
def advanceStateSnapshot (playbackState : Snapshot) (nextTrack : Track)
    (nextIndex : Nat) (streamUrl : String) : Snapshot :=
  { type := some (jsOrString playbackState.type "playlist"),
    trackId := some nextTrack.id,
    title := some nextTrack.title,
    artist := some nextTrack.artist,
    offsetInMilliseconds := some 0,
    token := some nextTrack.id,
    currentIndex := some nextIndex,
    url := some streamUrl,
    playlistId := playbackState.playlistId,
    playlistName := playbackState.playlistName,
    albumId := playbackState.albumId,
    albumName := playbackState.albumName,
    artistId := playbackState.artistId,
    artistName := playbackState.artistName }

/-- The `PlaybackFinished` case (lines 441-551). Note that the event's
`token` is only logged by the source, never compared with the stored
snapshot's token: the decision to advance depends solely on the stored
playlist. With a playlist and `currentIndex < length - 1`, the handler
resolves the next track's stream URL, appends the clamped-index playlist
snapshot (`updatePlaylistIndex`) and then the advance snapshot; otherwise it
appends `{...playbackState, isComplete: true, completedAt}`. A failing stream
resolution appends an error snapshot instead. -/
def handlePlaybackFinished (resolveStreamUrl : String → Option String)
    (store : PlaybackStore) (sessionCurrent : Option Snapshot)
    (accessToken : String) (eventToken : String) (now : Int) : PlaybackStore :=
  let playbackState := (getLatestPlaybackState store).getD (sessionCurrent.getD {})
  match getPlaylist store with
  | some pl =>
    if (pl.currentIndex : Int) < (pl.trackList.length : Int) - 1 then
      if accessToken = "" then store
      else
        match pl.trackList.get? (pl.currentIndex + 1) with
        | none => store
        | some nextTrack =>
          match resolveStreamUrl nextTrack.id with
          | none =>
            savePlaybackState store
              { playbackState with
                error := some "No se pudo reproducir la siguiente pista",
                errorTimestamp := some now }
          | some streamUrl =>
            let store1 := (updatePlaylistIndex store ((pl.currentIndex : Int) + 1) now).2
            savePlaybackState store1
              (advanceStateSnapshot playbackState nextTrack (pl.currentIndex + 1)
                streamUrl)
    else
      savePlaybackState store
        { playbackState with isComplete := some true, completedAt := some now }
  | none =>
    savePlaybackState store
      { playbackState with isComplete := some true, completedAt := some now }

/-- The `PlaybackStopped` case (lines 553-577): persist the reported offset
via `updateTrackState` (the guarding `if (playbackState)` is always truthy
because of the `|| {}` session fallback). -/
def handlePlaybackStopped (store : PlaybackStore) (sessionCurrent : Option Snapshot)
    (token : String) (offsetInMilliseconds : Int) (now : Int) : PlaybackStore :=
  (updateTrackState store token
    { offsetInMilliseconds := some offsetInMilliseconds, pausedAt := some now }
    now).2

/-- A four-track list and playlist snapshots used as concrete inputs. -/
def fourTracks : List Track :=
  [⟨"t1", "T1", "A1"⟩, ⟨"t2", "T2", "A2"⟩, ⟨"t3", "T3", "A3"⟩, ⟨"t4", "T4", "A4"⟩]

def playlistSnapshotAt (i : Nat) (tok : String) : Snapshot :=
  { type := some "playlist", trackList := some fourTracks,
    currentIndex := some i, token := some tok }

def twoTracks : List Track :=
  [⟨"t1", "T1", "A1"⟩, ⟨"t2", "T2", "A2"⟩]

def staleLatest : Snapshot :=
  { type := some "playlist", trackList := some twoTracks,
    currentIndex := some 0, token := some "t1" }

end AudioPlayerEventHandler

/-!
Theorems: association-list (JS Map) lemmas, then per-component lemmas and the
claim theorems with their witnesses.
-/


theorem jsMapGet_set_same {β : Type} (m : List (String × β)) (key : String) (v : β) :
    jsMapGet (jsMapSet m key v) key = some v := by
  unfold jsMapSet
  by_cases h : (jsMapGet m key).isSome
  · simp only [h, if_true]
    induction m with
    | nil => simp [jsMapGet] at h
    | cons p rest ih =>
      by_cases hk : p.1 = key
      · simp only [List.map_cons, if_pos hk]
        simp [jsMapGet]
      · simp only [List.map_cons, if_neg hk]
        have h2 : (jsMapGet rest key).isSome := by
          simpa [jsMapGet, hk] using h
        simpa [jsMapGet, hk] using ih h2
  · simp only [h, if_false]
    induction m with
    | nil => simp [jsMapGet]
    | cons p rest ih =>
      by_cases hk : p.1 = key
      · exfalso
        apply h
        simp [jsMapGet, hk]
      · have h2 : ¬ (jsMapGet rest key).isSome := by
          simpa [jsMapGet, hk] using h
        simpa [jsMapGet, hk] using ih h2

theorem jsMapGet_delete_same {β : Type} (m : List (String × β)) (key : String) :
    jsMapGet (jsMapDelete m key) key = none := by
  induction m with
  | nil => simp [jsMapDelete, jsMapGet]
  | cons p rest ih =>
    by_cases hk : p.1 = key
    · simpa [jsMapDelete, hk] using ih
    · simpa [jsMapDelete, jsMapGet, hk] using ih

theorem jsMapDelete_length_le {β : Type} (m : List (String × β)) (key : String) :
    (jsMapDelete m key).length ≤ m.length :=
  List.length_filter_le _ m

theorem jsMapDelete_length_lt {β : Type} (m : List (String × β)) (key : String)
    (h : ∃ v, (key, v) ∈ m) : (jsMapDelete m key).length < m.length := by
  obtain ⟨v, hv⟩ := h
  induction m with
  | nil => cases hv
  | cons p rest ih =>
    rcases List.mem_cons.mp hv with h1 | h1
    · subst h1
      simp only [jsMapDelete, List.filter_cons]
      simp only [bne_self_eq_false, Bool.false_eq_true, if_false]
      exact Nat.lt_succ_of_le (List.length_filter_le _ rest)
    · by_cases hk : p.1 = key
      · simp only [jsMapDelete, List.filter_cons, hk]
        simp only [bne_self_eq_false, Bool.false_eq_true, if_false]
        exact Nat.lt_succ_of_le (List.length_filter_le _ rest)
      · simp only [jsMapDelete, List.filter_cons]
        have : (p.1 != key) = true := bne_iff_ne.mpr hk
        simp only [this, if_true, List.length_cons]
        exact Nat.succ_lt_succ (ih h1)

theorem jsMapSet_length_le {β : Type} (m : List (String × β)) (key : String) (v : β) :
    (jsMapSet m key v).length ≤ m.length + 1 := by
  unfold jsMapSet
  by_cases h : (jsMapGet m key).isSome
  · simp [h]
  · simp [h]

namespace TidalApiClient

theorem specRetryable_nonRetryable (e : HttpError) (h : specRetryable e = true) :
    nonRetryable e = false := by
  unfold specRetryable at h
  unfold nonRetryable
  cases hs : e.status with
  | none => rfl
  | some s =>
    rw [hs] at h
    simp only [Bool.or_eq_true, beq_iff_eq, Bool.and_eq_true, decide_eq_true_eq] at h
    simp only [Bool.or_eq_false_iff, beq_eq_false_iff_ne, ne_eq]
    rcases h with h | ⟨h1, h2⟩ <;> omega

theorem delayList_cons_range (f : Nat → ℚ) (attempt r : Nat) (hr : r ≠ 0) :
    f attempt :: (List.range (r - 1)).map (fun i => f (attempt + 1 + i))
      = (List.range r).map (fun i => f (attempt + i)) := by
  obtain ⟨r2, rfl⟩ : ∃ r2, r = r2 + 1 := ⟨r - 1, by omega⟩
  simp only [Nat.add_sub_cancel, List.range_succ_eq_map, List.map_cons, List.map_map]
  refine List.cons_eq_cons.mpr ⟨by rw [Nat.add_zero], ?_⟩
  apply List.map_congr_left
  intro a _
  simp only [Function.comp_apply]
  congr 1
  omega

theorem runRetryLoop_allRetryable (outcome : Nat → AttemptOutcome α) (rand : Nat → ℚ)
    (baseDelayMs maxDelayMs : ℚ) (errs : Nat → HttpError) :
    ∀ remaining attempt le, 1 ≤ remaining →
    (∀ j, attempt ≤ j → j < attempt + remaining →
      outcome j = .fail (errs j) ∧ nonRetryable (errs j) = false) →
    runRetryLoop outcome rand baseDelayMs maxDelayMs remaining attempt le =
      ⟨.error (some (errs (attempt + (remaining - 1)))), remaining,
       (List.range (remaining - 1)).map
         (fun i => attemptDelay baseDelayMs maxDelayMs rand (attempt + i))⟩ := by
  intro remaining
  induction remaining with
  | zero => intro attempt le h1; omega
  | succ r ih =>
    intro attempt le _ h
    have hout := (h attempt (Nat.le_refl _) (by omega)).1
    have hnr := (h attempt (Nat.le_refl _) (by omega)).2
    rw [runRetryLoop, hout]
    simp only [hnr, Bool.false_eq_true, if_false]
    by_cases hr0 : r = 0
    · subst hr0
      simp
    · rw [if_neg hr0]
      have hrest := ih (attempt + 1) (some (errs attempt)) (by omega)
        (fun j hj1 hj2 => h j (by omega) (by omega))
      simp only [hrest, RetryRun.mk.injEq]
      refine ⟨?_, trivial, ?_⟩
      · have harith : attempt + 1 + (r - 1) = attempt + (r + 1 - 1) := by omega
        rw [harith]
      · simp only [Nat.add_sub_cancel]
        exact delayList_cons_range (attemptDelay baseDelayMs maxDelayMs rand) attempt r hr0

theorem runRetryLoop_stopsAtNonRetryable (outcome : Nat → AttemptOutcome α) (rand : Nat → ℚ)
    (baseDelayMs maxDelayMs : ℚ) (errs : Nat → HttpError) :
    ∀ k remaining attempt le, k < remaining →
    (∀ j, attempt ≤ j → j < attempt + k →
      outcome j = .fail (errs j) ∧ nonRetryable (errs j) = false) →
    outcome (attempt + k) = .fail (errs (attempt + k)) →
    nonRetryable (errs (attempt + k)) = true →
    (runRetryLoop outcome rand baseDelayMs maxDelayMs remaining attempt le).result
        = .error (some (errs (attempt + k))) ∧
    (runRetryLoop outcome rand baseDelayMs maxDelayMs remaining attempt le).attemptsMade
        = k + 1 := by
  intro k
  induction k with
  | zero =>
    intro remaining attempt le hlt _ hout hnr
    obtain ⟨r, hr⟩ : ∃ r, remaining = r + 1 := ⟨remaining - 1, by omega⟩
    subst hr
    rw [Nat.add_zero] at hout hnr
    rw [runRetryLoop, hout]
    simp [hnr]
  | succ k ih =>
    intro remaining attempt le hlt h hout hnr
    obtain ⟨r, hr⟩ : ∃ r, remaining = r + 1 := ⟨remaining - 1, by omega⟩
    subst hr
    have hout0 := (h attempt (Nat.le_refl _) (by omega)).1
    have hnr0 := (h attempt (Nat.le_refl _) (by omega)).2
    rw [runRetryLoop, hout0]
    simp only [hnr0, Bool.false_eq_true, if_false]
    have hr0 : r ≠ 0 := by omega
    rw [if_neg hr0]
    have harith : attempt + 1 + k = attempt + (k + 1) := by omega
    have hrec := ih r (attempt + 1) (some (errs attempt)) (by omega)
      (fun j hj1 hj2 => h j (by omega) (by omega))
      (by rw [harith]; exact hout) (by rw [harith]; exact hnr)
    rw [harith] at hrec
    dsimp only
    exact ⟨hrec.1, by rw [hrec.2]⟩

end TidalApiClient

namespace TidalApiClient

/-- C3: Retry classification. If an attempt of `requestWithRetry` fails with an
HTTP status in 400/401/403/404 (after any earlier attempts failed retryably),
no further attempt is made — that attempt is the last one — and that very error
object is thrown. If every attempt fails with a retryable error (429, 5xx, or a
network/timeout error with no response), the request is re-attempted up to
`retries` total attempts and the last error encountered is thrown unchanged. -/
theorem requestWithRetry_classification {α : Type} (outcome : Nat → AttemptOutcome α)
    (rand : Nat → ℚ) (baseDelayMs maxDelayMs : ℚ) (errs : Nat → HttpError) (retries : Nat) :
    (∀ k, k < retries →
      (∀ j, j < k → outcome j = .fail (errs j) ∧ specRetryable (errs j) = true) →
      outcome k = .fail (errs k) →
      nonRetryable (errs k) = true →
      (requestWithRetry outcome rand baseDelayMs maxDelayMs retries).attemptsMade = k + 1 ∧
      (requestWithRetry outcome rand baseDelayMs maxDelayMs retries).result
        = .error (some (errs k)))
    ∧ (1 ≤ retries →
      (∀ j, j < retries → outcome j = .fail (errs j) ∧ specRetryable (errs j) = true) →
      (requestWithRetry outcome rand baseDelayMs maxDelayMs retries).attemptsMade = retries ∧
      (requestWithRetry outcome rand baseDelayMs maxDelayMs retries).result
        = .error (some (errs (retries - 1)))) := by
  constructor
  · intro k hk h hout hnr
    have hstop := runRetryLoop_stopsAtNonRetryable outcome rand baseDelayMs maxDelayMs errs
      k retries 0 none hk
      (fun j hj1 hj2 => ⟨(h j (by omega)).1,
        specRetryable_nonRetryable _ (h j (by omega)).2⟩)
      (by simpa using hout) (by simpa using hnr)
    simp only [Nat.zero_add] at hstop
    exact ⟨hstop.2, hstop.1⟩
  · intro hr h
    have hall := runRetryLoop_allRetryable outcome rand baseDelayMs maxDelayMs errs
      retries 0 none hr
      (fun j hj1 hj2 => ⟨(h j (by omega)).1,
        specRetryable_nonRetryable _ (h j (by omega)).2⟩)
    unfold requestWithRetry
    rw [hall]
    exact ⟨rfl, by simp⟩

/-- C3 witness: a simulated 404 triggers zero retries (one attempt, that error
thrown); a simulated 503 with `retries = 3` is attempted 3 times and the third
attempt's error object is thrown unchanged. -/
theorem requestWithRetry_classification_witness :
    ((requestWithRetry (α := Nat) (fun j => AttemptOutcome.fail ⟨some 404, j⟩)
        (fun _ => (1 : ℚ)/2) 1000 10000 3).attemptsMade = 0 + 1
      ∧ (requestWithRetry (α := Nat) (fun j => AttemptOutcome.fail ⟨some 404, j⟩)
        (fun _ => (1 : ℚ)/2) 1000 10000 3).result = .error (some ⟨some 404, 0⟩))
    ∧ ((requestWithRetry (α := Nat) (fun j => AttemptOutcome.fail ⟨some 503, j⟩)
        (fun _ => (1 : ℚ)/2) 1000 10000 3).attemptsMade = 3
      ∧ (requestWithRetry (α := Nat) (fun j => AttemptOutcome.fail ⟨some 503, j⟩)
        (fun _ => (1 : ℚ)/2) 1000 10000 3).result = .error (some ⟨some 503, 2⟩)) := by
  constructor
  · exact (requestWithRetry_classification (α := Nat)
      (fun j => AttemptOutcome.fail ⟨some 404, j⟩) (fun _ => (1 : ℚ)/2) 1000 10000
      (fun j => ⟨some 404, j⟩) 3).1 0 (by omega)
      (fun j hj => absurd hj (by omega)) rfl (by decide)
  · exact (requestWithRetry_classification (α := Nat)
      (fun j => AttemptOutcome.fail ⟨some 503, j⟩) (fun _ => (1 : ℚ)/2) 1000 10000
      (fun j => ⟨some 503, j⟩) 3).2 (by omega) (fun j hj => ⟨rfl, rfl⟩)

/-- C4: Backoff schedule. When every attempt fails retryably, the delay waited
between 0-indexed attempt `n` and attempt `n + 1` is
`min(maxDelayMs, baseDelayMs * 2 ^ n) + jitter` with
`0 ≤ jitter ≤ 0.2 * min(maxDelayMs, baseDelayMs * 2 ^ n)` (the jitter is
`Math.random()` times that bound), and exactly `retries - 1` delays are waited:
none after the final attempt. -/
theorem requestWithRetry_backoff_schedule {α : Type} (outcome : Nat → AttemptOutcome α)
    (rand : Nat → ℚ) (baseDelayMs maxDelayMs : ℚ) (errs : Nat → HttpError) (retries : Nat)
    (hout : ∀ j, j < retries → outcome j = AttemptOutcome.fail (errs j))
    (hretry : ∀ j, j < retries → specRetryable (errs j) = true)
    (hrand : ∀ j, 0 ≤ rand j ∧ rand j < 1)
    (hbase : 0 ≤ baseDelayMs) (hmax : 0 ≤ maxDelayMs) (hr : 1 ≤ retries) :
    (requestWithRetry outcome rand baseDelayMs maxDelayMs retries).delays.length
        = retries - 1 ∧
    ∀ n, n < retries - 1 →
      ∃ jitter,
        (requestWithRetry outcome rand baseDelayMs maxDelayMs retries).delays.getD n 0
          = backoffDelay baseDelayMs maxDelayMs n + jitter ∧
        0 ≤ jitter ∧ jitter ≤ backoffDelay baseDelayMs maxDelayMs n * (2 / 10) := by
  have hall := runRetryLoop_allRetryable outcome rand baseDelayMs maxDelayMs errs
    retries 0 none hr
    (fun j hj1 hj2 => ⟨hout j (by omega),
      specRetryable_nonRetryable _ (hretry j (by omega))⟩)
  unfold requestWithRetry
  rw [hall]
  constructor
  · simp
  · intro n hn
    refine ⟨rand n * (backoffDelay baseDelayMs maxDelayMs n * (2 / 10)), ?_, ?_, ?_⟩
    · show ((List.range (retries - 1)).map
          (fun i => attemptDelay baseDelayMs maxDelayMs rand (0 + i))).getD n 0 = _
      rw [List.getD_eq_getElem?_getD, List.getElem?_map, List.getElem?_range hn]
      simp only [Option.map_some, Option.getD_some, Nat.zero_add]
      rfl
    · have hb : 0 ≤ backoffDelay baseDelayMs maxDelayMs n :=
        le_min hmax (mul_nonneg (pow_nonneg (by norm_num) _) hbase)
      exact mul_nonneg (hrand n).1 (mul_nonneg hb (by norm_num))
    · have hb : 0 ≤ backoffDelay baseDelayMs maxDelayMs n :=
        le_min hmax (mul_nonneg (pow_nonneg (by norm_num) _) hbase)
      have hX : 0 ≤ backoffDelay baseDelayMs maxDelayMs n * (2 / 10) :=
        mul_nonneg hb (by norm_num)
      calc rand n * (backoffDelay baseDelayMs maxDelayMs n * (2 / 10))
          ≤ 1 * (backoffDelay baseDelayMs maxDelayMs n * (2 / 10)) :=
            mul_le_mul_of_nonneg_right (le_of_lt (hrand n).2) hX
        _ = backoffDelay baseDelayMs maxDelayMs n * (2 / 10) := one_mul _

/-- C4 witness: with three 503-failing attempts, `baseDelayMs = 1000`,
`maxDelayMs = 10000` and `Math.random()` fixed at one half, exactly two delays
are waited and each has the exponential-plus-bounded-jitter shape. -/
theorem requestWithRetry_backoff_schedule_witness :
    (requestWithRetry (α := Nat) (fun j => AttemptOutcome.fail ⟨some 503, j⟩)
        (fun _ => (1 : ℚ)/2) 1000 10000 3).delays.length = 3 - 1 ∧
    ∀ n, n < 3 - 1 →
      ∃ jitter,
        (requestWithRetry (α := Nat) (fun j => AttemptOutcome.fail ⟨some 503, j⟩)
            (fun _ => (1 : ℚ)/2) 1000 10000 3).delays.getD n 0
          = backoffDelay 1000 10000 n + jitter ∧
        0 ≤ jitter ∧ jitter ≤ backoffDelay 1000 10000 n * (2 / 10) :=
  requestWithRetry_backoff_schedule (fun j => AttemptOutcome.fail ⟨some 503, j⟩)
    (fun _ => (1 : ℚ)/2) 1000 10000 (fun j => ⟨some 503, j⟩) 3
    (fun j hj => rfl) (fun j hj => rfl)
    (fun j => ⟨by norm_num, by norm_num⟩) (by norm_num) (by norm_num) (by omega)

end TidalApiClient

namespace TidalService

/-- C1 (refresh-once is not implemented): against the claimed contract, on a
401 with a resolvable refresh token and a successful exchange the coordinator
does persist the rotated pair and invalidate the old token's cache entry, but
it invokes `apiCallFn` exactly once in total — never a second time — and
returns the *string* `apiCallFn.toString().replace(oldToken, newToken)`, i.e.
a rewrite of the failed call's serialized form, instead of the result of a
re-invocation parameterized with the new token. -/
theorem executeWithTokenRefresh_string_rewrite_bug :
    executeWithTokenRefresh
        ⟨some ⟨"OLD_AT", "RT_1"⟩, none,
         fun rt => if rt = "RT_1" then .ok ⟨"NEW_AT", "RT_2", 3600⟩
                   else .error ⟨some 400, 9⟩⟩
        ⟨.error ⟨some 401, 7⟩, "() => tidalApi.get(/search, params, OLD_AT)"⟩
        "OLD_AT" (some "user-1")
      = ⟨.ok (.sourceText "() => tidalApi.get(/search, params, NEW_AT)"), 1,
         [.update "user-1" "OLD_AT" "NEW_AT" "RT_2" 3600,
          .cacheDelete "tidal" "userInfo:OLD_AT"]⟩ := by
  rfl

/-- C2: Refresh failure propagation. When a wrapped call fails with a 401 and
either no refresh token is resolvable (neither by `userId` nor by the
access-token index) or the token exchange itself throws, the coordinator
rethrows the *original* 401 error object — not the refresh-path error — after
a single invocation of `apiCallFn` and with nothing persisted. -/
theorem executeWithTokenRefresh_propagates_original_error
    (env : RefreshEnv) (apiCallFn : ApiCallFn) (accessToken : String)
    (userId : Option String) (err : TidalApiClient.HttpError)
    (hrun : apiCallFn.run = .error err)
    (hstatus : err.status = some 401)
    (htok : accessToken ≠ "")
    (hfail : resolveRefreshToken env userId = none
      ∨ ∃ rt e2, resolveRefreshToken env userId = some rt
          ∧ env.exchange rt = .error e2) :
    (executeWithTokenRefresh env apiCallFn accessToken userId).result = .error err ∧
    (executeWithTokenRefresh env apiCallFn accessToken userId).apiCallInvocations = 1 ∧
    (executeWithTokenRefresh env apiCallFn accessToken userId).persists = [] := by
  unfold executeWithTokenRefresh
  rw [hrun]
  dsimp only
  rw [if_pos ⟨hstatus, htok⟩]
  rcases hfail with h | ⟨rt, e2, hrt, hex⟩
  · rw [h]
    exact ⟨rfl, rfl, rfl⟩
  · rw [hrt]
    dsimp only
    rw [hex]
    exact ⟨rfl, rfl, rfl⟩

/-- C2 witness: one call where no refresh token resolves, and one where the
token exchange throws a 500; in both, the original 401 error object (tag 7)
comes back after exactly one invocation. -/
theorem executeWithTokenRefresh_propagates_original_error_witness :
    ((executeWithTokenRefresh ⟨none, none, fun _ => .error ⟨some 500, 3⟩⟩
        ⟨.error ⟨some 401, 7⟩, "src"⟩ "AT_1" none).result = .error ⟨some 401, 7⟩
      ∧ (executeWithTokenRefresh ⟨none, none, fun _ => .error ⟨some 500, 3⟩⟩
        ⟨.error ⟨some 401, 7⟩, "src"⟩ "AT_1" none).apiCallInvocations = 1
      ∧ (executeWithTokenRefresh ⟨none, none, fun _ => .error ⟨some 500, 3⟩⟩
        ⟨.error ⟨some 401, 7⟩, "src"⟩ "AT_1" none).persists = [])
    ∧ ((executeWithTokenRefresh ⟨some ⟨"AT_1", "RT_1"⟩, none, fun _ => .error ⟨some 500, 3⟩⟩
        ⟨.error ⟨some 401, 7⟩, "src"⟩ "AT_1" (some "u-1")).result = .error ⟨some 401, 7⟩
      ∧ (executeWithTokenRefresh ⟨some ⟨"AT_1", "RT_1"⟩, none, fun _ => .error ⟨some 500, 3⟩⟩
        ⟨.error ⟨some 401, 7⟩, "src"⟩ "AT_1" (some "u-1")).apiCallInvocations = 1
      ∧ (executeWithTokenRefresh ⟨some ⟨"AT_1", "RT_1"⟩, none, fun _ => .error ⟨some 500, 3⟩⟩
        ⟨.error ⟨some 401, 7⟩, "src"⟩ "AT_1" (some "u-1")).persists = []) :=
  ⟨executeWithTokenRefresh_propagates_original_error _ _ _ _ _ rfl rfl
      (by decide) (Or.inl rfl),
   executeWithTokenRefresh_propagates_original_error _ _ _ _ _ rfl rfl
      (by decide) (Or.inr ⟨"RT_1", ⟨some 500, 3⟩, rfl, rfl⟩)⟩

end TidalService

namespace CacheService

theorem ensureNs_enabled {V : Type} (st : CacheState V) (ns : String) :
    (ensureNs st ns).enabled = st.enabled := by
  unfold ensureNs
  split <;> rfl

theorem ensureNs_maxSize {V : Type} (st : CacheState V) (ns : String) :
    (ensureNs st ns).maxSize = st.maxSize := by
  unfold ensureNs
  split <;> rfl

theorem ensureNs_stats {V : Type} (st : CacheState V) (ns : String) :
    (ensureNs st ns).stats = st.stats := by
  unfold ensureNs
  split <;> rfl

theorem ensureNs_of_some {V : Type} (st : CacheState V) (ns : String) (cache)
    (hc : jsMapGet st.caches ns = some cache) : ensureNs st ns = st := by
  unfold ensureNs
  rw [hc]
  rfl

theorem nsOf_ensureNs {V : Type} (st : CacheState V) (ns : String) :
    nsOf (ensureNs st ns) ns = nsOf st ns := by
  unfold ensureNs
  by_cases h : (jsMapGet st.caches ns).isSome
  · rw [if_pos h]
  · rw [if_neg h]
    unfold nsOf
    cases hc : jsMapGet st.caches ns with
    | some c => rw [hc] at h; simp at h
    | none =>
      show (jsMapGet (jsMapSet st.caches ns []) ns).getD [] = _
      rw [jsMapGet_set_same]
      simp

theorem nsOf_of_some {V : Type} (st : CacheState V) (ns : String) (cache)
    (hc : jsMapGet st.caches ns = some cache) : nsOf st ns = cache := by
  unfold nsOf
  rw [hc]
  rfl

theorem findOldest_isSome {V : Type} (m : List (String × CacheEntry V)) :
    ∀ cur, ∃ q, findOldest (some cur) m = some q := by
  induction m with
  | nil => intro cur; exact ⟨cur, rfl⟩
  | cons p rest ih =>
    intro cur
    show (∃ q, (if p.2.createdAt < cur.2.createdAt then findOldest (some p) rest
      else findOldest (some cur) rest) = some q)
    by_cases h : p.2.createdAt < cur.2.createdAt
    · rw [if_pos h]; exact ih p
    · rw [if_neg h]; exact ih cur

theorem findOldest_some_min {V : Type} (m : List (String × CacheEntry V)) :
    ∀ cur q, findOldest (some cur) m = some q →
      (q = cur ∨ q ∈ m) ∧ q.2.createdAt ≤ cur.2.createdAt ∧
      ∀ p ∈ m, q.2.createdAt ≤ p.2.createdAt := by
  induction m with
  | nil =>
    intro cur q hq
    cases hq
    exact ⟨Or.inl rfl, le_refl _, by intro p hp; cases hp⟩
  | cons p rest ih =>
    intro cur q hq
    replace hq : (if p.2.createdAt < cur.2.createdAt then findOldest (some p) rest
        else findOldest (some cur) rest) = some q := hq
    by_cases h : p.2.createdAt < cur.2.createdAt
    · rw [if_pos h] at hq
      obtain ⟨hmem, hle, hall⟩ := ih p q hq
      refine ⟨?_, ?_, ?_⟩
      · rcases hmem with h1 | h1
        · exact Or.inr (h1 ▸ List.mem_cons_self p rest)
        · exact Or.inr (List.mem_cons_of_mem p h1)
      · exact le_trans hle (le_of_lt h)
      · intro p2 hp2
        rcases List.mem_cons.mp hp2 with h2 | h2
        · exact h2 ▸ hle
        · exact hall p2 h2
    · rw [if_neg h] at hq
      obtain ⟨hmem, hle, hall⟩ := ih cur q hq
      refine ⟨?_, hle, ?_⟩
      · rcases hmem with h1 | h1
        · exact Or.inl h1
        · exact Or.inr (List.mem_cons_of_mem p h1)
      · intro p2 hp2
        rcases List.mem_cons.mp hp2 with h2 | h2
        · exact h2 ▸ le_trans hle (not_lt.mp h)
        · exact hall p2 h2

theorem jsMapDelete_of_not_mem {β : Type} (m : List (String × β)) (key : String)
    (h : key ∉ m.map Prod.fst) : jsMapDelete m key = m := by
  induction m with
  | nil => rfl
  | cons p rest ih =>
    simp only [List.map_cons, List.mem_cons, not_or] at h
    have hp : (p.1 != key) = true := bne_iff_ne.mpr (fun he => h.1 he.symm)
    simp only [jsMapDelete, List.filter_cons, hp, if_true]
    exact congrArg (p :: ·) (ih h.2)

theorem jsMapDelete_length_nodup {β : Type} (m : List (String × β)) (key : String)
    (v : β) (hmem : (key, v) ∈ m) (hnd : (m.map Prod.fst).Nodup) :
    (jsMapDelete m key).length = m.length - 1 := by
  induction m with
  | nil => cases hmem
  | cons p rest ih =>
    simp only [List.map_cons, List.nodup_cons] at hnd
    rcases List.mem_cons.mp hmem with h1 | h1
    · have hk : p.1 = key := by rw [← h1]
      have : jsMapDelete (p :: rest) key = jsMapDelete rest key := by
        simp only [jsMapDelete, List.filter_cons, hk]
        simp only [bne_self_eq_false, Bool.false_eq_true, if_false]
      rw [this, jsMapDelete_of_not_mem rest key (hk ▸ hnd.1)]
      simp
    · have hkmem : key ∈ rest.map Prod.fst :=
        List.mem_map.mpr ⟨(key, v), h1, rfl⟩
      have hp : (p.1 != key) = true :=
        bne_iff_ne.mpr (fun he => hnd.1 (he ▸ hkmem))
      simp only [jsMapDelete, List.filter_cons, hp, if_true, List.length_cons]
      have hrest := ih h1 hnd.2
      have hlen : 1 ≤ rest.length := List.length_pos.mpr (List.ne_nil_of_mem h1)
      unfold jsMapDelete at hrest
      omega

theorem evictOne_at_capacity {V : Type} (st : CacheState V) (ns : String) (cache)
    (hc : jsMapGet st.caches ns = some cache)
    (hfull : st.maxSize ≤ cache.length) (hpos : 1 ≤ st.maxSize) :
    ∃ kmin emin, findOldest (none : Option (String × CacheEntry V)) cache
        = some (kmin, emin) ∧
      (kmin, emin) ∈ cache ∧
      (∀ p ∈ cache, emin.createdAt ≤ p.2.createdAt) ∧
      evictOne st ns = { st with
        caches := jsMapSet st.caches ns (jsMapDelete cache kmin),
        stats := { st.stats with evictions := st.stats.evictions + 1 } } := by
  have hens : ensureNs st ns = st := ensureNs_of_some st ns cache hc
  have hns : nsOf st ns = cache := nsOf_of_some st ns cache hc
  cases hcl : cache with
  | nil =>
    exfalso
    rw [hcl] at hfull
    simp at hfull
    omega
  | cons p rest =>
    obtain ⟨q, hq⟩ := findOldest_isSome rest p
    obtain ⟨hmem, hlep, hall⟩ := findOldest_some_min rest p q hq
    have hq2 : findOldest (none : Option (String × CacheEntry V)) (p :: rest) = some q := hq
    refine ⟨q.1, q.2, ?_, ?_, ?_, ?_⟩
    · exact hq2
    · rcases hmem with h1 | h1
      · exact h1 ▸ List.mem_cons_self p rest
      · exact List.mem_cons_of_mem p h1
    · intro p2 hp2
      rcases List.mem_cons.mp hp2 with h2 | h2
      · exact h2 ▸ hlep
      · exact hall p2 h2
    · subst hcl
      unfold evictOne
      rw [hens]
      dsimp only
      rw [hns]
      have hnotlt : ¬ ((p :: rest).length < st.maxSize) := by
        simp only [List.length_cons] at hfull ⊢
        omega
      rw [if_neg hnotlt, hq2]

end CacheService

namespace CacheService

/-- C5: Cache TTL. An entry stored by `set` under any namespace, key and
`ttlSeconds` carries `expiresAt = now + ttl * 1000`; and in any cache state, a
`get` performed strictly after a stored entry's `expiresAt` returns absent
(`none`) — with no sweep needed — deleting the entry as a side effect and
incrementing both the `expired` and `misses` statistics. -/
theorem get_after_expiry {V : Type} :
    (∀ (st : CacheState V) (ns key : String) (value : V) (ttl t0 : Int),
      st.enabled = true →
      ∃ e, jsMapGet (nsOf (set st ns key value ttl t0) ns) key = some e ∧
        e.expiresAt = t0 + ttl * 1000) ∧
    (∀ (st : CacheState V) (ns key : String) (entry : CacheEntry V) (now : Int),
      st.enabled = true →
      jsMapGet (nsOf st ns) key = some entry →
      entry.expiresAt < now →
      (get st ns key now).1 = none ∧
      jsMapGet (nsOf (get st ns key now).2 ns) key = none ∧
      (get st ns key now).2.stats.expired = st.stats.expired + 1 ∧
      (get st ns key now).2.stats.misses = st.stats.misses + 1) := by
  constructor
  · intro st ns key value ttl t0 hen
    refine ⟨CacheEntry.create value ttl t0, ?_, rfl⟩
    unfold set
    rw [hen]
    simp only [Bool.true_eq_false, if_false]
    unfold nsOf
    dsimp only
    rw [jsMapGet_set_same]
    simp only [Option.getD_some]
    rw [jsMapGet_set_same]
  · intro st ns key entry now hen hentry hexp
    cases hc : jsMapGet st.caches ns with
    | none =>
      exfalso
      unfold nsOf at hentry
      rw [hc] at hentry
      simp [jsMapGet] at hentry
    | some cache =>
      have hens : ensureNs st ns = st := ensureNs_of_some st ns cache hc
      have hns : nsOf st ns = cache := nsOf_of_some st ns cache hc
      rw [hns] at hentry
      have hgetRun : get st ns key now = (none, { st with
          caches := jsMapSet st.caches ns (jsMapDelete cache key),
          stats := { st.stats with
            expired := st.stats.expired + 1,
            misses := st.stats.misses + 1 } }) := by
        unfold get
        rw [hen]
        simp only [Bool.true_eq_false, if_false]
        rw [hens]
        rw [hns, hentry]
        have hexpB : entry.isExpired now = true := by
          unfold CacheEntry.isExpired
          exact decide_eq_true hexp
        simp only [hexpB, if_true, hen]
      rw [hgetRun]
      refine ⟨rfl, ?_, rfl, rfl⟩
      unfold nsOf
      dsimp only
      rw [jsMapGet_set_same]
      simp only [Option.getD_some]
      exact jsMapGet_delete_same cache key

/-- C5 witness: a namespace holding one entry with `expiresAt = 1000`; a `set`
at time 0 with `ttl = 1` stores `expiresAt = 1000`, and a `get` at time 2000
returns absent, deletes the entry and counts it as expired and missed. -/
theorem get_after_expiry_witness :
    (∃ e, jsMapGet (nsOf (set (V := Nat)
        ⟨true, 2, [("tidal", [("k1", ⟨7, 1000, 0, 0, none⟩)])], ⟨0, 0, 0, 0, 0⟩⟩
        "tidal" "k2" 9 1 0) "tidal") "k2" = some e ∧ e.expiresAt = 0 + 1 * 1000) ∧
    ((get (V := Nat)
        ⟨true, 2, [("tidal", [("k1", ⟨7, 1000, 0, 0, none⟩)])], ⟨0, 0, 0, 0, 0⟩⟩
        "tidal" "k1" 2000).1 = none ∧
      jsMapGet (nsOf (get (V := Nat)
        ⟨true, 2, [("tidal", [("k1", ⟨7, 1000, 0, 0, none⟩)])], ⟨0, 0, 0, 0, 0⟩⟩
        "tidal" "k1" 2000).2 "tidal") "k1" = none ∧
      (get (V := Nat)
        ⟨true, 2, [("tidal", [("k1", ⟨7, 1000, 0, 0, none⟩)])], ⟨0, 0, 0, 0, 0⟩⟩
        "tidal" "k1" 2000).2.stats.expired = 0 + 1 ∧
      (get (V := Nat)
        ⟨true, 2, [("tidal", [("k1", ⟨7, 1000, 0, 0, none⟩)])], ⟨0, 0, 0, 0, 0⟩⟩
        "tidal" "k1" 2000).2.stats.misses = 0 + 1) :=
  ⟨get_after_expiry.1 ⟨true, 2, [("tidal", [("k1", ⟨7, 1000, 0, 0, none⟩)])],
      ⟨0, 0, 0, 0, 0⟩⟩ "tidal" "k2" 9 1 0 rfl,
   get_after_expiry.2 ⟨true, 2, [("tidal", [("k1", ⟨7, 1000, 0, 0, none⟩)])],
      ⟨0, 0, 0, 0, 0⟩⟩ "tidal" "k1" ⟨7, 1000, 0, 0, none⟩ 2000 rfl rfl (by decide)⟩

end CacheService

namespace CacheService

theorem nsOf_of_caches_set {V : Type} (enabled : Bool) (maxSize : Nat)
    (caches : List (String × List (String × CacheEntry V))) (stats : CacheStats)
    (ns : String) (m : List (String × CacheEntry V)) :
    nsOf ⟨enabled, maxSize, jsMapSet caches ns m, stats⟩ ns = m := by
  show (jsMapGet (jsMapSet caches ns m) ns).getD [] = m
  rw [jsMapGet_set_same]
  rfl

theorem set_eq_evict {V : Type} (st : CacheState V) (ns key : String) (value : V)
    (ttl now : Int) (cache : List (String × CacheEntry V)) (kmin : String)
    (hen : st.enabled = true)
    (hc : jsMapGet st.caches ns = some cache)
    (hcap : st.maxSize ≤ cache.length)
    (hevict : evictOne st ns = { st with
        caches := jsMapSet st.caches ns (jsMapDelete cache kmin),
        stats := { st.stats with evictions := st.stats.evictions + 1 } }) :
    set st ns key value ttl now = { st with
      caches := jsMapSet (jsMapSet st.caches ns (jsMapDelete cache kmin)) ns
        (jsMapSet (jsMapDelete cache kmin) key (CacheEntry.create value ttl now)),
      stats := { st.stats with
        evictions := st.stats.evictions + 1,
        sets := st.stats.sets + 1 } } := by
  have hens : ensureNs st ns = st := ensureNs_of_some st ns cache hc
  have hns : nsOf st ns = cache := nsOf_of_some st ns cache hc
  unfold set
  rw [hen]
  simp only [Bool.true_eq_false, if_false]
  rw [hens, hns]
  rw [if_pos hcap]
  rw [hevict]
  dsimp only
  rw [nsOf_of_caches_set]
  rw [hen]

/-- C6: Cache bound and eviction order. Part 1: with a namespace exactly at the
configured maximum, `set` first evicts exactly one entry — one whose
`createdAt` is minimal in the namespace — and then inserts the new entry; the
namespace map afterwards is exactly "delete the oldest, then set the new key",
and an eviction is counted. Part 2: a `set` never takes a namespace that is
within the bound above the configured maximum. -/
theorem set_at_capacity_evicts_oldest {V : Type} :
    (∀ (st : CacheState V) (ns key : String) (value : V) (ttl now : Int),
      st.enabled = true → 1 ≤ st.maxSize →
      (nsOf st ns).length = st.maxSize →
      ((nsOf st ns).map Prod.fst).Nodup →
      ∃ kmin emin,
        findOldest (none : Option (String × CacheEntry V)) (nsOf st ns)
          = some (kmin, emin) ∧
        (kmin, emin) ∈ nsOf st ns ∧
        (∀ p ∈ nsOf st ns, emin.createdAt ≤ p.2.createdAt) ∧
        nsOf (set st ns key value ttl now) ns
          = jsMapSet (jsMapDelete (nsOf st ns) kmin) key
              (CacheEntry.create value ttl now) ∧
        (jsMapDelete (nsOf st ns) kmin).length = st.maxSize - 1 ∧
        (set st ns key value ttl now).stats.evictions = st.stats.evictions + 1)
    ∧ (∀ (st : CacheState V) (ns key : String) (value : V) (ttl now : Int),
      1 ≤ st.maxSize →
      (nsOf st ns).length ≤ st.maxSize →
      (nsOf (set st ns key value ttl now) ns).length ≤ st.maxSize) := by
  constructor
  · intro st ns key value ttl now hen hpos hlen hnd
    cases hc : jsMapGet st.caches ns with
    | none =>
      exfalso
      have hns0 : nsOf st ns = [] := by unfold nsOf; rw [hc]; rfl
      rw [hns0] at hlen
      simp at hlen
      omega
    | some cache =>
      have hns : nsOf st ns = cache := nsOf_of_some st ns cache hc
      rw [hns] at hlen hnd ⊢
      obtain ⟨kmin, emin, hfo, hmem, hmin, hevict⟩ :=
        evictOne_at_capacity st ns cache hc (by omega) hpos
      have hset := set_eq_evict st ns key value ttl now cache kmin hen hc
        (by omega) hevict
      refine ⟨kmin, emin, hfo, hmem, hmin, ?_, ?_, ?_⟩
      · rw [hset]
        exact nsOf_of_caches_set st.enabled st.maxSize
          (jsMapSet st.caches ns (jsMapDelete cache kmin))
          { st.stats with
            evictions := st.stats.evictions + 1, sets := st.stats.sets + 1 }
          ns (jsMapSet (jsMapDelete cache kmin) key (CacheEntry.create value ttl now))
      · rw [jsMapDelete_length_nodup cache kmin emin hmem hnd, hlen]
      · rw [hset]
  · intro st ns key value ttl now hpos hlen
    by_cases hen : st.enabled = true
    · cases hc : jsMapGet st.caches ns with
      | none =>
        have hns0 : nsOf st ns = [] := by unfold nsOf; rw [hc]; rfl
        have hens : ensureNs st ns
            = { st with caches := jsMapSet st.caches ns [] } := by
          unfold ensureNs
          rw [hc]
          rfl
        have hns1 : nsOf (ensureNs st ns) ns = [] := by
          rw [nsOf_ensureNs]; exact hns0
        unfold set
        rw [hen]
        simp only [Bool.true_eq_false, if_false]
        rw [hns1]
        rw [if_neg (by rw [ensureNs_maxSize]; simp; omega)]
        rw [nsOf_of_caches_set (ensureNs st ns).enabled (ensureNs st ns).maxSize
          (ensureNs st ns).caches _ ns _]
        rw [hns1]
        have hle := jsMapSet_length_le ([] : List (String × CacheEntry V)) key
          (CacheEntry.create value ttl now)
        simp at hle
        omega
      | some cache =>
        have hns : nsOf st ns = cache := nsOf_of_some st ns cache hc
        have hens : ensureNs st ns = st := ensureNs_of_some st ns cache hc
        by_cases hcap : st.maxSize ≤ cache.length
        · have hlen2 : cache.length = st.maxSize := by rw [hns] at hlen; omega
          obtain ⟨kmin, emin, hfo, hmem, hmin, hevict⟩ :=
            evictOne_at_capacity st ns cache hc hcap hpos
          have hset := set_eq_evict st ns key value ttl now cache kmin hen hc
            hcap hevict
          rw [hset]
          rw [nsOf_of_caches_set st.enabled st.maxSize
            (jsMapSet st.caches ns (jsMapDelete cache kmin))
            { st.stats with
              evictions := st.stats.evictions + 1, sets := st.stats.sets + 1 }
            ns (jsMapSet (jsMapDelete cache kmin) key
              (CacheEntry.create value ttl now))]
          have hdel := jsMapDelete_length_lt cache kmin ⟨emin, hmem⟩
          have hsetlen := jsMapSet_length_le (jsMapDelete cache kmin) key
            (CacheEntry.create value ttl now)
          omega
        · unfold set
          rw [hen]
          simp only [Bool.true_eq_false, if_false]
          rw [hens, hns]
          rw [if_neg hcap]
          rw [hns]
          rw [nsOf_of_caches_set st.enabled st.maxSize st.caches
            { st.stats with sets := st.stats.sets + 1 } ns
            (jsMapSet cache key (CacheEntry.create value ttl now))]
          have hsetlen := jsMapSet_length_le cache key
            (CacheEntry.create value ttl now)
          rw [hns] at hlen
          omega
    · have hen2 : st.enabled = false := by
        revert hen; cases st.enabled <;> simp
      unfold set
      rw [if_pos hen2]
      exact hlen

end CacheService

namespace CacheService

/-- C6 witness: a namespace at capacity 2 holding `k1` (createdAt 5) and `k2`
(createdAt 3); inserting `k3` evicts the oldest entry and keeps the namespace
within the bound. -/
theorem set_at_capacity_evicts_oldest_witness :
    (∃ kmin emin,
      findOldest (none : Option (String × CacheEntry Nat))
          (nsOf (⟨true, 2, [("tidal", [("k1", ⟨7, 0, 5, 0, none⟩),
              ("k2", ⟨8, 0, 3, 0, none⟩)])], ⟨0, 0, 0, 0, 0⟩⟩ : CacheState Nat)
            "tidal")
        = some (kmin, emin) ∧
      (kmin, emin) ∈ nsOf (⟨true, 2, [("tidal", [("k1", ⟨7, 0, 5, 0, none⟩),
              ("k2", ⟨8, 0, 3, 0, none⟩)])], ⟨0, 0, 0, 0, 0⟩⟩ : CacheState Nat)
            "tidal" ∧
      (∀ p ∈ nsOf (⟨true, 2, [("tidal", [("k1", ⟨7, 0, 5, 0, none⟩),
              ("k2", ⟨8, 0, 3, 0, none⟩)])], ⟨0, 0, 0, 0, 0⟩⟩ : CacheState Nat)
            "tidal", emin.createdAt ≤ p.2.createdAt) ∧
      nsOf (set (⟨true, 2, [("tidal", [("k1", ⟨7, 0, 5, 0, none⟩),
              ("k2", ⟨8, 0, 3, 0, none⟩)])], ⟨0, 0, 0, 0, 0⟩⟩ : CacheState Nat)
            "tidal" "k3" 9 60 10) "tidal"
        = jsMapSet (jsMapDelete
            (nsOf (⟨true, 2, [("tidal", [("k1", ⟨7, 0, 5, 0, none⟩),
              ("k2", ⟨8, 0, 3, 0, none⟩)])], ⟨0, 0, 0, 0, 0⟩⟩ : CacheState Nat)
              "tidal") kmin) "k3" (CacheEntry.create 9 60 10) ∧
      (jsMapDelete (nsOf (⟨true, 2, [("tidal", [("k1", ⟨7, 0, 5, 0, none⟩),
              ("k2", ⟨8, 0, 3, 0, none⟩)])], ⟨0, 0, 0, 0, 0⟩⟩ : CacheState Nat)
            "tidal") kmin).length = 2 - 1 ∧
      (set (⟨true, 2, [("tidal", [("k1", ⟨7, 0, 5, 0, none⟩),
              ("k2", ⟨8, 0, 3, 0, none⟩)])], ⟨0, 0, 0, 0, 0⟩⟩ : CacheState Nat)
            "tidal" "k3" 9 60 10).stats.evictions = 0 + 1) ∧
    (nsOf (set (⟨true, 2, [("tidal", [("k1", ⟨7, 0, 5, 0, none⟩),
              ("k2", ⟨8, 0, 3, 0, none⟩)])], ⟨0, 0, 0, 0, 0⟩⟩ : CacheState Nat)
            "tidal" "k3" 9 60 10) "tidal").length ≤ 2 :=
  ⟨set_at_capacity_evicts_oldest.1
      ⟨true, 2, [("tidal", [("k1", ⟨7, 0, 5, 0, none⟩),
          ("k2", ⟨8, 0, 3, 0, none⟩)])], ⟨0, 0, 0, 0, 0⟩⟩
      "tidal" "k3" 9 60 10 rfl (by decide) rfl (by decide),
   set_at_capacity_evicts_oldest.2
      ⟨true, 2, [("tidal", [("k1", ⟨7, 0, 5, 0, none⟩),
          ("k2", ⟨8, 0, 3, 0, none⟩)])], ⟨0, 0, 0, 0, 0⟩⟩
      "tidal" "k3" 9 60 10 (by decide) (by decide)⟩

end CacheService

namespace TokenPersistenceService

theorem tableLookup_tablePut_same (t : List TokenRecord) (r : TokenRecord) :
    tableLookup (tablePut t r) r.userId r.accessToken = some r := by
  have hr : (r.userId == r.userId && r.accessToken == r.accessToken) = true := by
    simp
  unfold tablePut
  by_cases h : t.any (fun x => x.userId == r.userId && x.accessToken == r.accessToken)
  · rw [if_pos h]
    induction t with
    | nil => simp [List.any_nil] at h
    | cons x rest ih =>
      by_cases hx : (x.userId == r.userId && x.accessToken == r.accessToken) = true
      · simp only [List.map_cons, if_pos hx]
        unfold tableLookup
        simp [List.find?_cons, hr]
      · simp only [List.map_cons, if_neg hx]
        have h2 : rest.any
            (fun x => x.userId == r.userId && x.accessToken == r.accessToken) := by
          rcases List.any_eq_true.mp h with ⟨y, hy, hyp⟩
          rcases List.mem_cons.mp hy with h3 | h3
          · exact absurd (h3 ▸ hyp) hx
          · exact List.any_eq_true.mpr ⟨y, h3, hyp⟩
        have := ih h2
        unfold tableLookup at this ⊢
        rw [List.find?_cons]
        have hxq : ¬ ((x.userId == r.userId && x.accessToken == r.accessToken) = true) := hx
        simp only [hxq]
        simpa using this
  · rw [if_neg h]
    induction t with
    | nil =>
      unfold tableLookup
      simp [List.find?_cons, hr]
    | cons x rest ih =>
      have hx : ¬ ((x.userId == r.userId && x.accessToken == r.accessToken) = true) := by
        intro hx
        exact h (List.any_eq_true.mpr ⟨x, List.mem_cons_self x rest, hx⟩)
      have h2 : ¬ rest.any
          (fun x => x.userId == r.userId && x.accessToken == r.accessToken) := by
        intro h2
        rcases List.any_eq_true.mp h2 with ⟨y, hy, hyp⟩
        exact h (List.any_eq_true.mpr ⟨y, List.mem_cons_of_mem x hy, hyp⟩)
      unfold tableLookup at ih ⊢
      rw [List.cons_append, List.find?_cons]
      simp only [hx]
      simpa using ih h2

theorem tableLookup_tablePut_other (t : List TokenRecord) (r : TokenRecord)
    (uid atk : String) (h : uid ≠ r.userId ∨ atk ≠ r.accessToken) :
    tableLookup (tablePut t r) uid atk = tableLookup t uid atk := by
  have hqr : (r.userId == uid && r.accessToken == atk) = false := by
    rcases h with h | h
    · have hb : (r.userId == uid) = false := beq_eq_false_iff_ne.mpr (Ne.symm h)
      simp [hb]
    · have hb : (r.accessToken == atk) = false := beq_eq_false_iff_ne.mpr (Ne.symm h)
      simp [hb]
  unfold tablePut
  by_cases hany : t.any (fun x => x.userId == r.userId && x.accessToken == r.accessToken)
  · rw [if_pos hany]
    clear hany
    induction t with
    | nil => rfl
    | cons x rest ih =>
      by_cases hx : (x.userId == r.userId && x.accessToken == r.accessToken) = true
      · have hxkey : x.userId = r.userId ∧ x.accessToken = r.accessToken := by
          simpa [Bool.and_eq_true, beq_iff_eq] using hx
        have hqx : (x.userId == uid && x.accessToken == atk) = false := by
          rw [hxkey.1, hxkey.2]
          exact hqr
        simp only [List.map_cons, if_pos hx]
        unfold tableLookup
        rw [List.find?_cons, List.find?_cons]
        simp only [hqr, hqx]
        exact ih
      · simp only [List.map_cons, if_neg hx]
        unfold tableLookup at ih ⊢
        rw [List.find?_cons, List.find?_cons]
        cases hq : (x.userId == uid && x.accessToken == atk) with
        | true => rfl
        | false => exact ih
  · rw [if_neg hany]
    clear hany
    induction t with
    | nil =>
      unfold tableLookup
      simp [List.find?_cons, hqr]
    | cons x rest ih =>
      unfold tableLookup at ih ⊢
      rw [List.cons_append, List.find?_cons, List.find?_cons]
      cases hq : (x.userId == uid && x.accessToken == atk) with
      | true => rfl
      | false => exact ih

theorem tableLookup_tableDelete_same (t : List TokenRecord) (u a : String) :
    tableLookup (tableDelete t u a) u a = none := by
  induction t with
  | nil => rfl
  | cons x rest ih =>
    unfold tableDelete at ih ⊢
    rw [List.filter_cons]
    by_cases hx : (x.userId == u && x.accessToken == a) = true
    · simp only [hx, Bool.not_true, Bool.false_eq_true, if_false]
      exact ih
    · have hx2 : (!(x.userId == u && x.accessToken == a)) = true := by
        cases hxx : (x.userId == u && x.accessToken == a) with
        | true => exact absurd hxx hx
        | false => rfl
      simp only [hx2, if_true]
      unfold tableLookup at ih ⊢
      rw [List.find?_cons]
      have hx3 : ¬ ((x.userId == u && x.accessToken == a) = true) := hx
      simp only [hx3]
      simpa using ih

theorem tableLookup_tableDelete_other (t : List TokenRecord) (u a uid atk : String)
    (h : uid ≠ u ∨ atk ≠ a) :
    tableLookup (tableDelete t u a) uid atk = tableLookup t uid atk := by
  induction t with
  | nil => rfl
  | cons x rest ih =>
    unfold tableDelete at ih ⊢
    rw [List.filter_cons]
    by_cases hx : (x.userId == u && x.accessToken == a) = true
    · have hxkey : x.userId = u ∧ x.accessToken = a := by
        simpa [Bool.and_eq_true, beq_iff_eq] using hx
      have hqx : (x.userId == uid && x.accessToken == atk) = false := by
        rw [hxkey.1, hxkey.2]
        rcases h with h | h
        · have hb : (u == uid) = false := beq_eq_false_iff_ne.mpr (Ne.symm h)
          simp [hb]
        · have hb : (a == atk) = false := beq_eq_false_iff_ne.mpr (Ne.symm h)
          simp [hb]
      simp only [hx, Bool.not_true, Bool.false_eq_true, if_false]
      unfold tableLookup at ih ⊢
      rw [List.find?_cons]
      simp only [hqx]
      simpa using ih
    · have hx2 : (!(x.userId == u && x.accessToken == a)) = true := by
        cases hxx : (x.userId == u && x.accessToken == a) with
        | true => exact absurd hxx hx
        | false => rfl
      simp only [hx2, if_true]
      unfold tableLookup at ih ⊢
      rw [List.find?_cons, List.find?_cons]
      cases hq : (x.userId == uid && x.accessToken == atk) with
      | true => rfl
      | false => exact ih

theorem updateCache_table (st : TokenServiceState) (a r : String) :
    (updateCache st a r).table = st.table := by
  unfold updateCache
  split
  · rfl
  · dsimp only
    split
    · split <;> rfl
    · rfl

theorem saveTokens_ok (st : TokenServiceState) (u a r : String) (e n : Int) :
    (saveTokens true st u a r e n).threw = false ∧
    (saveTokens true st u a r e n).state.table
      = tablePut st.table ⟨u, a, r, n + e * 1000, n, n⟩ := by
  unfold saveTokens
  rw [if_neg (by simp : ¬ ((true : Bool) = false))]
  refine ⟨rfl, ?_⟩
  dsimp only
  split
  · rw [updateCache_table]
  · rfl

theorem deleteTokens_ok (st : TokenServiceState) (u a : String) :
    (deleteTokens true st u a).threw = false ∧
    (deleteTokens true st u a).state.table = tableDelete st.table u a := by
  unfold deleteTokens
  rw [if_neg (by simp : ¬ ((true : Bool) = false))]
  refine ⟨rfl, ?_⟩
  dsimp only
  split <;> rfl

end TokenPersistenceService

namespace TokenPersistenceService

/-- C9 counterexample: with the store holding the old pair, a rotation whose
delete succeeds but whose insert (`putItem` in `saveTokens`) throws leaves the
store in exactly the intermediate state the claim rules out — the operation
threw, the old `(userId, oldAccessToken)` pair is gone, and the new pair was
never inserted. -/
theorem updateTokens_not_atomic_counterexample :
    (updateTokens true false
        ⟨[⟨"u1", "OLD_AT", "RT_OLD", 100, 0, 0⟩], [], false, 1000⟩
        "u1" "OLD_AT" "NEW_AT" "RT_NEW" 3600 50).threw = true ∧
    tableLookup (updateTokens true false
        ⟨[⟨"u1", "OLD_AT", "RT_OLD", 100, 0, 0⟩], [], false, 1000⟩
        "u1" "OLD_AT" "NEW_AT" "RT_NEW" 3600 50).state.table "u1" "OLD_AT" = none ∧
    tableLookup (updateTokens true false
        ⟨[⟨"u1", "OLD_AT", "RT_OLD", 100, 0, 0⟩], [], false, 1000⟩
        "u1" "OLD_AT" "NEW_AT" "RT_NEW" 3600 50).state.table "u1" "NEW_AT" = none := by
  decide

/-- C9, as amended: `updateTokens` is a delete of the old pair followed by an
insert of the new pair, as two separate store operations. When both succeed
the store holds the new pair and no longer the old one; when the delete itself
throws the store is unchanged; but when the insert throws after the delete
succeeded, `updateTokens` throws with the old pair already removed and the new
pair never inserted — the rotation is not atomic against a failure of the
insert step. -/
theorem updateTokens_rotation (st : TokenServiceState)
    (userId oldAccessToken newAccessToken newRefreshToken : String)
    (expiresIn now : Int)
    (hold : oldAccessToken ≠ "") (hne : newAccessToken ≠ oldAccessToken) :
    ((updateTokens true true st userId oldAccessToken newAccessToken
        newRefreshToken expiresIn now).threw = false ∧
      tableLookup (updateTokens true true st userId oldAccessToken newAccessToken
          newRefreshToken expiresIn now).state.table userId newAccessToken
        = some ⟨userId, newAccessToken, newRefreshToken,
            now + expiresIn * 1000, now, now⟩ ∧
      tableLookup (updateTokens true true st userId oldAccessToken newAccessToken
          newRefreshToken expiresIn now).state.table userId oldAccessToken = none)
    ∧ (∀ putOk,
      (updateTokens false putOk st userId oldAccessToken newAccessToken
        newRefreshToken expiresIn now).threw = true ∧
      (updateTokens false putOk st userId oldAccessToken newAccessToken
        newRefreshToken expiresIn now).state = st)
    ∧ ((updateTokens true false st userId oldAccessToken newAccessToken
        newRefreshToken expiresIn now).threw = true ∧
      tableLookup (updateTokens true false st userId oldAccessToken newAccessToken
          newRefreshToken expiresIn now).state.table userId oldAccessToken = none ∧
      tableLookup (updateTokens true false st userId oldAccessToken newAccessToken
          newRefreshToken expiresIn now).state.table userId newAccessToken
        = tableLookup st.table userId newAccessToken) := by
  have hdel := deleteTokens_ok st userId oldAccessToken
  refine ⟨?_, ?_, ?_⟩
  · have hrun : updateTokens true true st userId oldAccessToken newAccessToken
        newRefreshToken expiresIn now
        = saveTokens true (deleteTokens true st userId oldAccessToken).state
            userId newAccessToken newRefreshToken expiresIn now := by
      unfold updateTokens
      rw [if_pos hold]
      dsimp only
      rw [hdel.1]
      rfl
    rw [hrun]
    have hsave := saveTokens_ok (deleteTokens true st userId oldAccessToken).state
      userId newAccessToken newRefreshToken expiresIn now
    refine ⟨hsave.1, ?_, ?_⟩
    · rw [hsave.2]
      exact tableLookup_tablePut_same _
        ⟨userId, newAccessToken, newRefreshToken, now + expiresIn * 1000, now, now⟩
    · rw [hsave.2]
      rw [tableLookup_tablePut_other _ _ userId oldAccessToken
        (Or.inr (fun he => hne he.symm))]
      rw [hdel.2]
      exact tableLookup_tableDelete_same st.table userId oldAccessToken
  · intro putOk
    have hrun : updateTokens false putOk st userId oldAccessToken newAccessToken
        newRefreshToken expiresIn now = ⟨true, st⟩ := by
      unfold updateTokens
      rw [if_pos hold]
      unfold deleteTokens
      rw [if_pos rfl]
      rfl
    rw [hrun]
    exact ⟨rfl, rfl⟩
  · have hrun : updateTokens true false st userId oldAccessToken newAccessToken
        newRefreshToken expiresIn now
        = ⟨true, (deleteTokens true st userId oldAccessToken).state⟩ := by
      unfold updateTokens
      rw [if_pos hold]
      dsimp only
      rw [hdel.1]
      unfold saveTokens
      rw [if_pos rfl]
      rfl
    rw [hrun]
    refine ⟨rfl, ?_, ?_⟩
    · dsimp only
      rw [hdel.2]
      exact tableLookup_tableDelete_same st.table userId oldAccessToken
    · dsimp only
      rw [hdel.2]
      exact tableLookup_tableDelete_other st.table userId oldAccessToken
        userId newAccessToken (Or.inr hne)
  
/-- C9 witness: a concrete successful rotation (old pair replaced by the new
pair), a failing delete (state unchanged), and a failing insert (intermediate
state), instantiating the amended characterization. -/
theorem updateTokens_rotation_witness :
    ((updateTokens true true
        ⟨[⟨"u1", "OLD_AT", "RT_OLD", 100, 0, 0⟩], [], false, 1000⟩
        "u1" "OLD_AT" "NEW_AT" "RT_NEW" 3600 50).threw = false ∧
      tableLookup (updateTokens true true
          ⟨[⟨"u1", "OLD_AT", "RT_OLD", 100, 0, 0⟩], [], false, 1000⟩
          "u1" "OLD_AT" "NEW_AT" "RT_NEW" 3600 50).state.table "u1" "NEW_AT"
        = some ⟨"u1", "NEW_AT", "RT_NEW", 50 + 3600 * 1000, 50, 50⟩ ∧
      tableLookup (updateTokens true true
          ⟨[⟨"u1", "OLD_AT", "RT_OLD", 100, 0, 0⟩], [], false, 1000⟩
          "u1" "OLD_AT" "NEW_AT" "RT_NEW" 3600 50).state.table "u1" "OLD_AT" = none)
    ∧ (∀ putOk,
      (updateTokens false putOk
        ⟨[⟨"u1", "OLD_AT", "RT_OLD", 100, 0, 0⟩], [], false, 1000⟩
        "u1" "OLD_AT" "NEW_AT" "RT_NEW" 3600 50).threw = true ∧
      (updateTokens false putOk
        ⟨[⟨"u1", "OLD_AT", "RT_OLD", 100, 0, 0⟩], [], false, 1000⟩
        "u1" "OLD_AT" "NEW_AT" "RT_NEW" 3600 50).state
        = ⟨[⟨"u1", "OLD_AT", "RT_OLD", 100, 0, 0⟩], [], false, 1000⟩)
    ∧ ((updateTokens true false
        ⟨[⟨"u1", "OLD_AT", "RT_OLD", 100, 0, 0⟩], [], false, 1000⟩
        "u1" "OLD_AT" "NEW_AT" "RT_NEW" 3600 50).threw = true ∧
      tableLookup (updateTokens true false
          ⟨[⟨"u1", "OLD_AT", "RT_OLD", 100, 0, 0⟩], [], false, 1000⟩
          "u1" "OLD_AT" "NEW_AT" "RT_NEW" 3600 50).state.table "u1" "OLD_AT" = none ∧
      tableLookup (updateTokens true false
          ⟨[⟨"u1", "OLD_AT", "RT_OLD", 100, 0, 0⟩], [], false, 1000⟩
          "u1" "OLD_AT" "NEW_AT" "RT_NEW" 3600 50).state.table "u1" "NEW_AT"
        = tableLookup [⟨"u1", "OLD_AT", "RT_OLD", 100, 0, 0⟩] "u1" "NEW_AT") :=
  updateTokens_rotation
    ⟨[⟨"u1", "OLD_AT", "RT_OLD", 100, 0, 0⟩], [], false, 1000⟩
    "u1" "OLD_AT" "NEW_AT" "RT_NEW" 3600 50 (by decide) (by decide)

end TokenPersistenceService

namespace PlaybackPersistenceService

theorem getPlaylist_eq (store : PlaybackStore) (cur : Snapshot) (l : List Track)
    (i : Nat) (hlat : getLatestPlaybackState store = some cur)
    (htype : cur.type = some "playlist") (hlist : cur.trackList = some l)
    (hidx : cur.currentIndex = some i) :
    getPlaylist store = some ⟨l, i⟩ := by
  unfold getPlaylist
  rw [hlat]
  dsimp only
  rw [if_pos htype, hlist, hidx]
  rfl

theorem updatePlaylistIndex_eq (store : PlaybackStore) (l : List Track) (i : Nat)
    (newIndex now : Int) (hpl : getPlaylist store = some ⟨l, i⟩) :
    (updatePlaylistIndex store newIndex now).2
      = { type := some "playlist", trackList := some l,
          currentIndex := some ((max 0 (min newIndex ((l.length : Int) - 1))).toNat),
          updatedAt := some now } :: store := by
  unfold updatePlaylistIndex
  rw [hpl]
  rfl

/-- C10: a stale-token update appends a sparse snapshot. When the latest
snapshot exists but its token differs from the requested one,
`updateTrackState` does not merge into the latest snapshot: it appends a new
latest snapshot built only from the update fields plus `token` and
`updatedAt`, so `type`, `trackList` and `currentIndex` are absent from it. In
particular a Stopped event carrying a stale token replaces the latest state
with that sparse record (the stored playlist context is no longer visible to
`getPlaylist`) rather than being ignored. -/
theorem updateTrackState_stale_token_sparse_append :
    (∀ (store : PlaybackStore) (cur : Snapshot) (token : String)
        (u : TrackUpdates) (now : Int),
      getLatestPlaybackState store = some cur →
      cur.token ≠ some token →
      (updateTrackState store token u now).2
        = updatesToSnapshot u token now :: store ∧
      (updatesToSnapshot u token now).type = none ∧
      (updatesToSnapshot u token now).trackList = none ∧
      (updatesToSnapshot u token now).currentIndex = none ∧
      (updatesToSnapshot u token now).token = some token ∧
      (updatesToSnapshot u token now).updatedAt = some now ∧
      (updatesToSnapshot u token now).offsetInMilliseconds
        = u.offsetInMilliseconds)
    ∧ (∀ (store : PlaybackStore) (cur : Snapshot) (token : String)
        (offsetMs now : Int) (session : Option Snapshot),
      getLatestPlaybackState store = some cur →
      cur.token ≠ some token →
      AudioPlayerEventHandler.handlePlaybackStopped store session token offsetMs now
        = updatesToSnapshot ⟨some offsetMs, some now, none, none, none⟩ token now
            :: store ∧
      getPlaylist (AudioPlayerEventHandler.handlePlaybackStopped store session
          token offsetMs now) = none) := by
  have hmain : ∀ (store : PlaybackStore) (cur : Snapshot) (token : String)
      (u : TrackUpdates) (now : Int),
      getLatestPlaybackState store = some cur →
      cur.token ≠ some token →
      (updateTrackState store token u now).2
        = updatesToSnapshot u token now :: store := by
    intro store cur token u now hlat hne
    unfold updateTrackState
    rw [hlat]
    dsimp only
    rw [if_pos hne]
    rfl
  constructor
  · intro store cur token u now hlat hne
    exact ⟨hmain store cur token u now hlat hne, rfl, rfl, rfl, rfl, rfl, rfl⟩
  · intro store cur token offsetMs now session hlat hne
    have h1 : AudioPlayerEventHandler.handlePlaybackStopped store session token
        offsetMs now
        = updatesToSnapshot ⟨some offsetMs, some now, none, none, none⟩ token now
            :: store := by
      unfold AudioPlayerEventHandler.handlePlaybackStopped
      exact hmain store cur token ⟨some offsetMs, some now, none, none, none⟩
        now hlat hne
    refine ⟨h1, ?_⟩
    rw [h1]
    rfl

/-- C10 witness: a playlist snapshot with token `t1`; a Stopped update for the
stale token `t9` appends a sparse snapshot carrying only the offset fields,
and the playlist context is gone. -/
theorem updateTrackState_stale_token_sparse_append_witness :
    ((updateTrackState
        [{ type := some "playlist",
           trackList := some [⟨"t1", "T1", "A1"⟩, ⟨"t2", "T2", "A2"⟩],
           currentIndex := some 0, token := some "t1" }]
        "t9" ⟨some 5000, some 77, none, none, none⟩ 77).2
      = updatesToSnapshot ⟨some 5000, some 77, none, none, none⟩ "t9" 77
          :: [{ type := some "playlist",
                trackList := some [⟨"t1", "T1", "A1"⟩, ⟨"t2", "T2", "A2"⟩],
                currentIndex := some 0, token := some "t1" }] ∧
      (updatesToSnapshot ⟨some 5000, some 77, none, none, none⟩ "t9" 77).type = none ∧
      (updatesToSnapshot ⟨some 5000, some 77, none, none, none⟩ "t9" 77).trackList
        = none ∧
      (updatesToSnapshot ⟨some 5000, some 77, none, none, none⟩ "t9" 77).currentIndex
        = none ∧
      (updatesToSnapshot ⟨some 5000, some 77, none, none, none⟩ "t9" 77).token
        = some "t9" ∧
      (updatesToSnapshot ⟨some 5000, some 77, none, none, none⟩ "t9" 77).updatedAt
        = some 77 ∧
      (updatesToSnapshot ⟨some 5000, some 77, none, none, none⟩ "t9"
          77).offsetInMilliseconds
        = (⟨some 5000, some 77, none, none, none⟩ : TrackUpdates).offsetInMilliseconds)
    ∧ (AudioPlayerEventHandler.handlePlaybackStopped
        [{ type := some "playlist",
           trackList := some [⟨"t1", "T1", "A1"⟩, ⟨"t2", "T2", "A2"⟩],
           currentIndex := some 0, token := some "t1" }]
        none "t9" 5000 77
      = updatesToSnapshot ⟨some 5000, some 77, none, none, none⟩ "t9" 77
          :: [{ type := some "playlist",
                trackList := some [⟨"t1", "T1", "A1"⟩, ⟨"t2", "T2", "A2"⟩],
                currentIndex := some 0, token := some "t1" }] ∧
      getPlaylist (AudioPlayerEventHandler.handlePlaybackStopped
        [{ type := some "playlist",
           trackList := some [⟨"t1", "T1", "A1"⟩, ⟨"t2", "T2", "A2"⟩],
           currentIndex := some 0, token := some "t1" }]
        none "t9" 5000 77) = none) :=
  ⟨updateTrackState_stale_token_sparse_append.1
      [{ type := some "playlist",
         trackList := some [⟨"t1", "T1", "A1"⟩, ⟨"t2", "T2", "A2"⟩],
         currentIndex := some 0, token := some "t1" }]
      { type := some "playlist",
        trackList := some [⟨"t1", "T1", "A1"⟩, ⟨"t2", "T2", "A2"⟩],
        currentIndex := some 0, token := some "t1" }
      "t9" ⟨some 5000, some 77, none, none, none⟩ 77 rfl (by decide),
   updateTrackState_stale_token_sparse_append.2
      [{ type := some "playlist",
         trackList := some [⟨"t1", "T1", "A1"⟩, ⟨"t2", "T2", "A2"⟩],
         currentIndex := some 0, token := some "t1" }]
      { type := some "playlist",
        trackList := some [⟨"t1", "T1", "A1"⟩, ⟨"t2", "T2", "A2"⟩],
        currentIndex := some 0, token := some "t1" }
      "t9" 5000 77 none rfl (by decide)⟩

end PlaybackPersistenceService

namespace AudioPlayerEventHandler

open PlaybackPersistenceService

/-- C7: Playback advance on Finished. When the stored playlist (latest
snapshot of type playlist) has a track list and `currentIndex` strictly below
`length - 1`, handling `PlaybackFinished` resolves the next track's stream URL
through the catalog layer and appends — after the clamped-index playlist
snapshot — a new latest snapshot with `currentIndex` incremented by one,
offset 0 and the resolved URL. When `currentIndex` equals `length - 1`, it
instead appends `{...latest, isComplete: true}` without advancing
`currentIndex`. -/
theorem handlePlaybackFinished_advance_or_complete :
    (∀ (resolve : String → Option String) (store : PlaybackStore)
        (session : Option Snapshot) (accessToken eventToken : String) (now : Int)
        (cur : Snapshot) (l : List Track) (i : Nat) (nextTrack : Track)
        (url : String),
      getLatestPlaybackState store = some cur →
      cur.type = some "playlist" →
      cur.trackList = some l →
      cur.currentIndex = some i →
      (i : Int) < (l.length : Int) - 1 →
      accessToken ≠ "" →
      l.get? (i + 1) = some nextTrack →
      resolve nextTrack.id = some url →
      handlePlaybackFinished resolve store session accessToken eventToken now
        = advanceStateSnapshot cur nextTrack (i + 1) url
          :: { type := some "playlist", trackList := some l,
               currentIndex := some (i + 1), updatedAt := some now }
          :: store ∧
      (advanceStateSnapshot cur nextTrack (i + 1) url).currentIndex = some (i + 1) ∧
      (advanceStateSnapshot cur nextTrack (i + 1) url).offsetInMilliseconds
        = some 0 ∧
      (advanceStateSnapshot cur nextTrack (i + 1) url).url = some url ∧
      (advanceStateSnapshot cur nextTrack (i + 1) url).token = some nextTrack.id)
    ∧ (∀ (resolve : String → Option String) (store : PlaybackStore)
        (session : Option Snapshot) (accessToken eventToken : String) (now : Int)
        (cur : Snapshot) (l : List Track) (i : Nat),
      getLatestPlaybackState store = some cur →
      cur.type = some "playlist" →
      cur.trackList = some l →
      cur.currentIndex = some i →
      i + 1 = l.length →
      handlePlaybackFinished resolve store session accessToken eventToken now
        = { cur with isComplete := some true, completedAt := some now } :: store ∧
      ({ cur with isComplete := some true, completedAt := some now }).currentIndex
        = cur.currentIndex) := by
  constructor
  · intro resolve store session accessToken eventToken now cur l i nextTrack url
      hlat htype hlist hidx hcond htok hget hres
    have hpl := getPlaylist_eq store cur l i hlat htype hlist hidx
    have hvi : (max 0 (min ((i : Int) + 1) ((l.length : Int) - 1))).toNat
        = i + 1 := by omega
    refine ⟨?_, rfl, rfl, rfl, rfl⟩
    unfold handlePlaybackFinished
    rw [hlat, hpl]
    dsimp only
    rw [if_pos hcond]
    rw [if_neg htok]
    rw [hget]
    dsimp only
    rw [hres]
    dsimp only
    rw [updatePlaylistIndex_eq store l i ((i : Int) + 1) now hpl]
    rw [hvi]
    rfl
  · intro resolve store session accessToken eventToken now cur l i
      hlat htype hlist hidx hlast
    have hpl := getPlaylist_eq store cur l i hlat htype hlist hidx
    refine ⟨?_, rfl⟩
    unfold handlePlaybackFinished
    rw [hlat, hpl]
    dsimp only
    rw [if_neg (by omega : ¬ ((i : Int) < (l.length : Int) - 1))]
    rfl

/-- C7 witness: a 4-track playlist at index 1 advances to index 2 with offset
0 on Finished; at index 3 (the last track) Finished sets `isComplete` and
leaves `currentIndex` at 3. -/
theorem handlePlaybackFinished_advance_or_complete_witness :
    (handlePlaybackFinished (fun _ => some "url-3") [playlistSnapshotAt 1 "t2"]
        none "AT" "t2" 500
      = advanceStateSnapshot (playlistSnapshotAt 1 "t2") ⟨"t3", "T3", "A3"⟩
          (1 + 1) "url-3"
        :: { type := some "playlist", trackList := some fourTracks,
             currentIndex := some (1 + 1), updatedAt := some 500 }
        :: [playlistSnapshotAt 1 "t2"] ∧
      (advanceStateSnapshot (playlistSnapshotAt 1 "t2") ⟨"t3", "T3", "A3"⟩
          (1 + 1) "url-3").currentIndex = some (1 + 1) ∧
      (advanceStateSnapshot (playlistSnapshotAt 1 "t2") ⟨"t3", "T3", "A3"⟩
          (1 + 1) "url-3").offsetInMilliseconds = some 0 ∧
      (advanceStateSnapshot (playlistSnapshotAt 1 "t2") ⟨"t3", "T3", "A3"⟩
          (1 + 1) "url-3").url = some "url-3" ∧
      (advanceStateSnapshot (playlistSnapshotAt 1 "t2") ⟨"t3", "T3", "A3"⟩
          (1 + 1) "url-3").token = some (⟨"t3", "T3", "A3"⟩ : Track).id)
    ∧ (handlePlaybackFinished (fun _ => some "url-x") [playlistSnapshotAt 3 "t4"]
        none "AT" "t4" 600
      = { playlistSnapshotAt 3 "t4" with
          isComplete := some true, completedAt := some 600 }
        :: [playlistSnapshotAt 3 "t4"] ∧
      ({ playlistSnapshotAt 3 "t4" with
         isComplete := some true, completedAt := some 600 }).currentIndex
        = (playlistSnapshotAt 3 "t4").currentIndex) :=
  ⟨handlePlaybackFinished_advance_or_complete.1 (fun _ => some "url-3")
      [playlistSnapshotAt 1 "t2"] none "AT" "t2" 500 (playlistSnapshotAt 1 "t2")
      fourTracks 1 ⟨"t3", "T3", "A3"⟩ "url-3" rfl rfl rfl rfl (by decide)
      (by decide) rfl rfl,
   handlePlaybackFinished_advance_or_complete.2 (fun _ => some "url-x")
      [playlistSnapshotAt 3 "t4"] none "AT" "t4" 600 (playlistSnapshotAt 3 "t4")
      fourTracks 3 rfl rfl rfl rfl (by decide)⟩

/-- C8 (stale Finished events are not ignored): against the claim, the handler
never compares the event token with the latest snapshot token. Here the latest
snapshot plays `t1` but the Finished event carries the stale token `STALE`;
the persisted state still changes — two snapshots are appended and the latest
`currentIndex` advances to 1. -/
theorem handlePlaybackFinished_stale_token_still_advances :
    some "STALE" ≠ staleLatest.token ∧
    handlePlaybackFinished (fun _ => some "url-2") [staleLatest]
        none "AT" "STALE" 99
      ≠ [staleLatest] ∧
    (handlePlaybackFinished (fun _ => some "url-2") [staleLatest]
        none "AT" "STALE" 99).length = 3 ∧
    ((handlePlaybackFinished (fun _ => some "url-2") [staleLatest]
        none "AT" "STALE" 99).headD ({} : Snapshot)).currentIndex = some 1 := by
  refine ⟨by decide, by decide, by decide, by decide⟩


end AudioPlayerEventHandler
